import Mathlib

/-!
Verification development for `examples/print_detailed_defconfig.py`
(repository ikwzm/Kconfiglib).

The Python program defines a `DefConfigPrinter` class with

* an assignment loader `load_config` that scans a defconfig snapshot file
  into `ConfigInfo` records,
* an assignment table (`defined_config_list` / `defined_config_dict`),
* a tree builder `make_node_tree` that mirrors the external Kconfig
  menu/symbol tree into annotated `Node` objects with parent pointers and a
  `defined` flag propagated upwards,
* a template generator `generate_print_format`, and
* a tree printer (`print_node_tree` and friends).

This file shallow-embeds those parts.  Stateful Python code is embedded as
explicit state passing: the mutable `Node` arena of `make_node_tree` becomes
a `List NodeRec` indexed by allocation order (parent pointers are indices,
which are strictly smaller than the child's index since parents are
allocated first), and the `DefConfigPrinter` instance state becomes the
`PrinterState` structure.

Parts of this repository that are not included under `src/` (the
`kconfiglib` module itself: its `_set_match` / `_unset_match` regexes, the
`Kconfig.load_config` side effects, `Symbol.config_string`, `expr_value`)
are modelled from the specification, as flagged by doc comments starting
with `Modelled from the spec:`.
-/

/-- One assignment record produced by `DefConfigPrinter.load_config`
(`config_info` dict in the source): the option `name`, the raw (rstripped)
source `line`, whether the optional `"symbol"` key was stored (`sym and
sym.nodes`), and the preceding `comment` block joined with newlines. -/
structure ConfigInfo where
  name : String
  line : String
  hasSymbol : Bool
  comment : String
deriving Repr, DecidableEq

/-- Kind of `menu_node.item` in the external tree: a `Symbol` (always
named), a `Choice` (name may be `None`), the `MENU` constant or the
`COMMENT` constant. -/
inductive ItemKind where
  | symbol (name : String)
  | choice (name : Option String)
  | menuItem
  | commentItem
deriving Repr, DecidableEq

/-- `menu_node.item.__class__ is Symbol` / `isinstance(menu_node.item, Symbol)`. -/
def ItemKind.isSymbolKind : ItemKind → Bool
  | .symbol _ => true
  | _ => false

/-- `menu_node.item.__class__ is Choice` / `isinstance(menu_node.item, Choice)`. -/
def ItemKind.isChoiceKind : ItemKind → Bool
  | .choice _ => true
  | _ => false

/-- `menu_node.item is MENU`. -/
def ItemKind.isMenuKind : ItemKind → Bool
  | .menuItem => true
  | _ => false

/-- `menu_node.item.name`; `none` models Python `None` (a `Choice` may be
anonymous; `MENU`/`COMMENT` have no `name` read by this program). -/
def ItemKind.name? : ItemKind → Option String
  | .symbol n => some n
  | .choice n => n
  | _ => none

/-- Per-node data of the external kconfiglib menu tree consumed by
`make_node_tree`.  `dep` holds the value `expr_value(menu_node.dep)` has at
tree-build time (the external evaluator is opaque to this program; only the
resulting number is consumed). -/
structure MenuNodeData where
  item : ItemKind
  is_menuconfig : Bool
  dep : Nat
  prompt : Option String
  help : Option String
deriving Repr, DecidableEq

mutual
/-- An external menu node: its data plus its `list` (child chain). -/
inductive MenuTree where
  | mk (data : MenuNodeData) (children : MenuForest)
deriving Repr, DecidableEq

/-- A chain of external sibling menu nodes, linked by `next` in the source. -/
inductive MenuForest where
  | nil
  | cons (t : MenuTree) (rest : MenuForest)
deriving Repr, DecidableEq
end

mutual
/-- Number of nodes of one external tree. -/
def MenuTree.size : MenuTree → Nat
  | .mk _ cf => 1 + cf.size

/-- Number of nodes of an external sibling chain. -/
def MenuForest.size : MenuForest → Nat
  | .nil => 0
  | .cons t rest => t.size + rest.size
end

/-- One mirrored node (`DefConfigPrinter.Node.__init__`): `parent` is the
arena index of the parent node, `next`/`child` the sibling/`list` links (as
arena indices), and the remaining fields are set exactly as in the
constructor (`defined = False`, `config = None`, the three kind flags, the
prompt and help references). -/
structure NodeRec where
  parent : Option Nat
  level : Nat
  next : Option Nat
  child : Option Nat
  defined : Bool
  config : Option ConfigInfo
  is_symbol : Bool
  is_choice : Bool
  is_menu : Bool
  prompt : Option String
  help : Option String
deriving Repr, DecidableEq

/-- `Node(menu_node, parent, level)`: the freshly constructed node. -/
def mkNodeRec (md : MenuNodeData) (parent : Option Nat) (level : Nat) : NodeRec :=
  { parent := parent
    level := level
    next := none
    child := none
    defined := false
    config := none
    is_symbol := md.item.isSymbolKind
    is_choice := md.item.isChoiceKind
    is_menu := md.item.isMenuKind || md.is_menuconfig
    prompt := md.prompt
    help := md.help }

/-- Mutable state threaded through `make_node_tree`: the arena of `Node`
objects created so far (index = allocation order) and `self.max_level`. -/
structure BuildState where
  nodes : List NodeRec
  maxLevel : Nat
deriving Repr

/-- Mutation of the arena entry `i` by `f` (a Python attribute assignment
on one `Node` object; no-op when `i` is out of range, which never happens
for indices produced by the builder). -/
def updateAt (f : NodeRec → NodeRec) (nodes : List NodeRec) (i : Nat) : List NodeRec :=
  match nodes[i]? with
  | some n => nodes.set i (f n)
  | none => nodes

/-- `parent.defined = True` on the arena entry `i`. -/
def setDefinedAt (nodes : List NodeRec) (i : Nat) : List NodeRec :=
  updateAt (fun n => { n with defined := true }) nodes i

/-- `curr_node.defined = True; curr_node.config = self.defined_config_dict[name]`. -/
def setMatchedAt (nodes : List NodeRec) (i : Nat) (ci : ConfigInfo) : List NodeRec :=
  updateAt (fun n => { n with defined := true, config := some ci }) nodes i

/-- `curr_node.list = ...` (the `child` link of arena entry `i`). -/
def setChildAt (nodes : List NodeRec) (i : Nat) (c : Option Nat) : List NodeRec :=
  updateAt (fun n => { n with child := c }) nodes i

/-- `prev_node.next = curr_node` rephrased: the `next` link of arena entry
`i` is set to the head of the rest of the sibling chain (the source links
each previous node to the current one as the loop advances; since `next` is
never read during construction the net state is the same). -/
def setNextAt (nodes : List NodeRec) (i : Nat) (nx : Option Nat) : List NodeRec :=
  updateAt (fun n => { n with next := nx }) nodes i

/-- The upward propagation loop of `make_node_tree`:
`while parent and parent.defined is False: parent.defined = True;
parent = parent.parent`.  `fuel` bounds the walk; the builder always passes
the arena size, which suffices because parent indices strictly decrease. -/
def propagateDefined (fuel : Nat) (nodes : List NodeRec) (p : Option Nat) : List NodeRec :=
  match fuel, p with
  | 0, _ => nodes
  | _, none => nodes
  | fuel + 1, some i =>
    match nodes[i]? with
    | none => nodes
    | some n =>
      if n.defined then nodes
      else propagateDefined fuel (setDefinedAt nodes i) n.parent

/-- The dependency/table match of `make_node_tree` (lines 246-256): when
`expr_value(dep) > 0`, the item is a `Symbol` or `Choice` and its name is a
key of `defined_config_dict`, mark the current node (`idx`) defined with
its record and propagate definedness up the parent chain. -/
def matchAssignment (dict : String → Option ConfigInfo) (md : MenuNodeData)
    (parent : Option Nat) (idx : Nat) (st1 : BuildState) : BuildState :=
  if 0 < md.dep then
    if md.item.isSymbolKind || md.item.isChoiceKind then
      match md.item.name? with
      | some name =>
        match dict name with
        | some ci =>
          { st1 with
            nodes := propagateDefined st1.nodes.length (setMatchedAt st1.nodes idx ci) parent }
        | none => st1
      | none => st1
    else st1
  else st1

mutual
/-- One iteration of the `while menu_node:` loop of `make_node_tree`: create
`curr_node`, run the dependency/table match (with upward propagation), and
recurse into `menu_node.list` when present.  The recursive call inlines
`make_node_tree` (loop over the child chain followed by the trailing
`if self.max_level < level: self.max_level = level` update, here with
`level+1`).  Returns the arena index of the created node. -/
def buildNode (dict : String → Option ConfigInfo) (t : MenuTree) (parent : Option Nat)
    (level : Nat) (st : BuildState) : BuildState × Nat :=
  match t with
  | .mk md cf =>
    let idx := st.nodes.length
    let st1 : BuildState := { st with nodes := st.nodes ++ [mkNodeRec md parent level] }
    let st2 : BuildState := matchAssignment dict md parent idx st1
    let st3 : BuildState :=
      match cf with
      | .nil => st2
      | .cons c rest =>
        let r := buildChain dict (.cons c rest) (some idx) (level + 1) st2
        let r1 : BuildState :=
          { r.1 with maxLevel := if r.1.maxLevel < level + 1 then level + 1 else r.1.maxLevel }
        { r1 with nodes := setChildAt r1.nodes idx r.2 }
    (st3, idx)

/-- The `while menu_node:` loop of `make_node_tree` over a sibling chain:
builds each node in order, links siblings, and returns the index of the
first node of the chain (`first_node`). -/
def buildChain (dict : String → Option ConfigInfo) (f : MenuForest) (parent : Option Nat)
    (level : Nat) (st : BuildState) : BuildState × Option Nat :=
  match f with
  | .nil => (st, none)
  | .cons t rest =>
    let r1 := buildNode dict t parent level st
    let r2 := buildChain dict rest parent level r1.1
    ({ r2.1 with nodes := setNextAt r2.1.nodes r1.2 r2.2 }, some r1.2)
end

/-- `DefConfigPrinter.make_node_tree(menu_node, parent_node, level)`: the
sibling-chain loop followed by the `max_level` update. -/
def makeNodeTree (dict : String → Option ConfigInfo) (f : MenuForest) (parent : Option Nat)
    (level : Nat) (st : BuildState) : BuildState × Option Nat :=
  let r := buildChain dict f parent level st
  ({ r.1 with maxLevel := if r.1.maxLevel < level then level else r.1.maxLevel }, r.2)

example :
    (makeNodeTree (fun _ => none)
      (.cons (.mk { item := .menuItem, is_menuconfig := true, dep := 1,
                    prompt := some "m", help := none } .nil) .nil)
      none 0 { nodes := [], maxLevel := 0 }).1.maxLevel = 0 := by
  decide

/-! String primitives.  The built-in `String` operations do not reduce
inside the kernel, so the Python string operations used by the program are
embedded over the underlying character lists (`String.data`). -/

/-- Build a string from its character list. -/
def ofChars (l : List Char) : String := ⟨l⟩

/-- Is the first list a prefix of the second? -/
def isPrefixChars : List Char → List Char → Bool
  | [], _ => true
  | _ :: _, [] => false
  | c :: cs, d :: ds => c == d && isPrefixChars cs ds

/-- Python `s.startswith(pre)`. -/
def strStartsWith (s pre : String) : Bool := isPrefixChars pre.data s.data

/-- Python `s[n:]` (drop the first `n` characters). -/
def strDropChars (s : String) (n : Nat) : String := ofChars (s.data.drop n)

/-- Python `s[:n]` (keep the first `n` characters; `strTakeChars s (n-1)`
with `n = 0` models `s[:-1]` only when `s` is empty, which the program
never hits with its positive default column width). -/
def strTakeChars (s : String) (n : Nat) : String := ofChars (s.data.take n)

/-- Python whitespace as stripped by `str.rstrip()` (the characters the
program can meet in a text line). -/
def isSpaceChar (c : Char) : Bool :=
  c == ' ' || c == '\t' || c == '\n' || c == '\x0d' || c == '\x0c' || c == '\x0b'

/-- Python `line.rstrip()`: remove trailing whitespace. -/
def rstrip (s : String) : String :=
  ofChars ((s.data.reverse.dropWhile isSpaceChar).reverse)

/-- Python `s.lstrip(chars)`: remove leading characters drawn from `chars`. -/
def lstripOf (chars : List Char) (s : String) : String :=
  ofChars (s.data.dropWhile (fun c => chars.contains c))

/-- Python `sep.join(xs)`. -/
def joinWith (sep : String) : List String → String
  | [] => ""
  | [x] => x
  | x :: y :: xs => x ++ sep ++ joinWith sep (y :: xs)

/-- Worker for `replaceChars`, structurally recursive on a fuel that starts
at the length of the scanned list (one fuel unit is spent per step and at
least one character is consumed, so the fuel never runs out). -/
def replaceCharsGo (pat rep : List Char) : Nat → List Char → List Char
  | _, [] => []
  | 0, l => l
  | fuel + 1, c :: cs =>
    if pat ≠ [] ∧ isPrefixChars pat (c :: cs) then
      rep ++ replaceCharsGo pat rep fuel ((c :: cs).drop pat.length)
    else c :: replaceCharsGo pat rep fuel cs

/-- Python `s.replace(pat, rep)` (left-to-right, non-overlapping; the
program only replaces nonempty placeholder patterns). -/
def replaceChars (pat rep l : List Char) : List Char :=
  replaceCharsGo pat rep l.length l

/-- Python `s.replace(pat, rep)` on strings. -/
def strReplace (s pat rep : String) : String :=
  ofChars (replaceChars pat.data rep.data s.data)

/-- Splitting a character list at a separator character (used for
`node.help.splitlines()`; differs from Python only on a trailing newline,
which yields a final empty chunk here and none in Python). -/
def splitOnChar (sep : Char) : List Char → List (List Char)
  | [] => [[]]
  | c :: cs =>
    match splitOnChar sep cs with
    | [] => [[c]]
    | h :: t => if c == sep then [] :: h :: t else (c :: h) :: t

/-- Modelled from the spec: `kconf._set_match`, the assignment pattern
`CONFIG_<NAME>=<value>` of the external kconfiglib module (not under
`src/`), matched at the start of the line; the name is nonempty and
contains no `=`, the value is the remainder after the first `=`. -/
def setMatch (line : String) : Option (String × String) :=
  if strStartsWith line "CONFIG_" then
    let rest := strDropChars line 7
    let name := ofChars (rest.data.takeWhile (fun c => !(c == '=')))
    let tail := ofChars (rest.data.dropWhile (fun c => !(c == '=')))
    if name ≠ "" ∧ strStartsWith tail "=" then some (name, strDropChars tail 1) else none
  else none

/-- Modelled from the spec: `kconf._unset_match`, the explicit-unset pattern
`# CONFIG_<NAME> is not set` of the external kconfiglib module (not under
`src/`), matched at the start of the line; the name is nonempty and
contains no space. -/
def unsetMatch (line : String) : Option String :=
  if strStartsWith line "# CONFIG_" then
    let rest := strDropChars line 9
    let name := ofChars (rest.data.takeWhile (fun c => !(c == ' ')))
    let tail := ofChars (rest.data.dropWhile (fun c => !(c == ' ')))
    if name ≠ "" ∧ strStartsWith tail " is not set" then some name else none
  else none

/-- `self.comment_match = re.compile(r"^#").match`: the line starts with `#`. -/
def commentMatch (line : String) : Bool :=
  strStartsWith line "#"

/-- One iteration of the `for line_num, line in enumerate(f, 1):` loop of
`DefConfigPrinter.load_config`.  The accumulator carries `comment_lines`
and `config_list`; `symNames` models which names the external
`self.kconf.syms.get` lookup resolves to a symbol with nonempty `nodes`
(only recorded, never read by the core).  The raw line is rstripped first,
then tried against the set pattern, the unset pattern and the comment
pattern in the source's order; any other line clears `comment_lines`. -/
def loadStep (symNames : List String) (acc : List String × List ConfigInfo)
    (raw : String) : List String × List ConfigInfo :=
  let line := rstrip raw
  match setMatch line with
  | some (name, _val) =>
    ([], acc.2 ++ [{ name := name, line := line, hasSymbol := symNames.contains name,
                     comment := joinWith "\n" acc.1 }])
  | none =>
    match unsetMatch line with
    | some name =>
      ([], acc.2 ++ [{ name := name, line := line, hasSymbol := symNames.contains name,
                       comment := joinWith "\n" acc.1 }])
    | none =>
      if commentMatch line then (acc.1 ++ [line], acc.2)
      else ([], acc.2)

/-- The whole scanning loop of `load_config`, starting from an empty
`comment_lines` buffer and empty `config_list`. -/
def loadFold (symNames : List String) (lines : List String) :
    List String × List ConfigInfo :=
  lines.foldl (loadStep symNames) ([], [])

/-- The `config_list` produced by scanning one snapshot file (a file is
identified with its list of raw lines). -/
def loadConfigList (symNames : List String) (lines : List String) : List ConfigInfo :=
  (loadFold symNames lines).2

/-- `self.defined_config_dict[name] = config_info` (Python dict assignment,
pointwise overwrite). -/
def updateDict (d : String → Option ConfigInfo) (name : String) (ci : ConfigInfo) :
    String → Option ConfigInfo :=
  fun n => if n = name then some ci else d n

/-- The `self.print_format_params` dict of `DefConfigPrinter.__init__`. -/
structure PrintFormatParams where
  print_first_level : Nat
  print_max_column : Nat
  print_comment : Bool
  print_help : Bool
  print_orig_config : Bool
  print_location : Bool
  prompt_indent_char : String
  separator_indent_char : String
  info_indent_char : String
  separator_char_list : List String
  separator_format : String
  prompt_format : String
  help_format : String
  help_line_format : String
  orig_config_format : String
  location_format : String
  menu_end_format : String
deriving Repr, DecidableEq

/-- The default `print_format_params` values from `__init__`. -/
def defaultPrintFormatParams : PrintFormatParams :=
  { print_first_level := 1
    print_max_column := 80
    print_comment := false
    print_help := false
    print_orig_config := false
    print_location := false
    prompt_indent_char := "#"
    separator_indent_char := "#"
    info_indent_char := "#"
    separator_char_list := []
    separator_format := "{separator_indent} {separator_line}"
    prompt_format := "#{separator}\n#{prompt_indent} {prompt}\n#{separator}"
    help_format := "#{info_indent} help\n{help}\n#{info_indent}"
    help_line_format := "#{info_indent}     {help_line}"
    orig_config_format := "#{info_indent} {config}"
    location_format := "#{info_indent} {filename} : {linenr}\n#{info_indent}"
    menu_end_format := "#{prompt_indent} end of {prompt}\n" }

/-- Python `str * n` (character repeated `n` times; here the repeated
string is the configured indent character). -/
def strRep (s : String) : Nat → String
  | 0 => ""
  | n + 1 => s ++ strRep s n

/-- Python `fmt.format(**params)` restricted to what this program uses:
each `\x7bkey\x7d` placeholder is replaced by its value (the defaults use
no brace escapes; replacement is applied key by key). -/
def formatSubst (fmt : String) (params : List (String × String)) : String :=
  params.foldl (fun acc kv => strReplace acc ("\x7b" ++ kv.1 ++ "\x7d") kv.2) fmt

/-- Python slice assignment `base[start:start+len(xs)] = xs` on a list (the
replaced range is clipped to the end of `base`, extending it if needed). -/
def sliceAssign (base : List String) (start : Nat) (xs : List String) : List String :=
  base.take start ++ xs ++ base.drop (start + xs.length)

/-- The six per-level template strings computed inside the
`for level in range(self.level_size):` loop of `generate_print_format`. -/
structure LevelFormats where
  prompt_fmt : String
  menu_end_fmt : String
  help_fmt : String
  help_line_fmt : String
  location_fmt : String
  orig_config_fmt : String
deriving Repr, DecidableEq

/-- The body of the per-level loop of `generate_print_format`: builds
`format_params`, formats the separator, truncates it to
`print_max_column - 1` characters and instantiates the six templates. -/
def mkLevelFormats (p : PrintFormatParams) (sepChars : List String) (level : Nat) :
    LevelFormats :=
  let params0 : List (String × String) :=
    [("prompt_indent", strRep p.prompt_indent_char level),
     ("separator_indent", strRep p.separator_indent_char level),
     ("info_indent", strRep p.info_indent_char level),
     ("separator_line", strRep (sepChars.getD level "") p.print_max_column),
     ("prompt", "{prompt}"),
     ("help", "{help}"),
     ("help_line", "{help_line}"),
     ("config", "{config}"),
     ("filename", "{filename}"),
     ("linenr", "{linenr}")]
  let separator := formatSubst p.separator_format params0
  let params1 := params0 ++ [("separator", strTakeChars separator (p.print_max_column - 1))]
  { prompt_fmt := formatSubst p.prompt_format params1
    menu_end_fmt := formatSubst p.menu_end_format params1
    help_fmt := formatSubst p.help_format params1
    help_line_fmt := formatSubst p.help_line_format params1
    location_fmt := formatSubst p.location_format params1
    orig_config_fmt := formatSubst p.orig_config_format params1 }

/-- The attributes `generate_print_format` stores on `self`: the copied
option flags and the six per-level template lists. -/
structure PrintFormats where
  print_first_level : Nat
  print_comment : Bool
  print_help : Bool
  print_orig_config : Bool
  print_location : Bool
  print_prompt_format : List String
  print_menu_end_format : List String
  print_location_format : List String
  print_help_format : List String
  print_help_line_format : List String
  print_orig_config_format : List String
deriving Repr, DecidableEq

/-- `DefConfigPrinter.generate_print_format` as a function of the stored
parameter dict and `self.level_size`: builds `separator_char_list` by slice
assignment at `print_first_level` and appends one entry per level to each
of the six template lists. -/
def generatePrintFormat (p : PrintFormatParams) (levelSize : Nat) : PrintFormats :=
  let sepChars := sliceAssign (List.replicate levelSize "") p.print_first_level
                    p.separator_char_list
  let levels := (List.range levelSize).map (mkLevelFormats p sepChars)
  { print_first_level := p.print_first_level
    print_comment := p.print_comment
    print_help := p.print_help
    print_orig_config := p.print_orig_config
    print_location := p.print_location
    print_prompt_format := levels.map (·.prompt_fmt)
    print_menu_end_format := levels.map (·.menu_end_fmt)
    print_location_format := levels.map (·.location_fmt)
    print_help_format := levels.map (·.help_fmt)
    print_help_line_format := levels.map (·.help_line_fmt)
    print_orig_config_format := levels.map (·.orig_config_fmt) }

/-- The mutable instance state of a `DefConfigPrinter`.  `kconf` models the
external `Kconfig` collaborator's mutable value state as the trace of
`self.kconf.load_config(file, replace, verbose)` calls made on it (a file
is its list of raw lines); `kconfTree` is the external menu tree reachable
from `self.kconf.top_node` (fixed structure, with `dep` already evaluated —
see `MenuNodeData`); `tree` is the arena and root index of `self.top_node`
(`([], none)` models the initial `None`). -/
structure PrinterState where
  kconf : List (List String × Bool)
  kconfTree : MenuForest
  defined_config_list : List ConfigInfo
  defined_config_dict : String → Option ConfigInfo
  max_level : Nat
  level_size : Nat
  tree : List NodeRec × Option Nat
  print_format_params : PrintFormatParams
  formats : PrintFormats

/-- `DefConfigPrinter.__init__` (after the external `Kconfig` object and its
warning options, which only touch the collaborator): empty table, zero
levels, no tree, default parameters, and an initial `generate_print_format`
call with `level_size = 0`. -/
def mkPrinterState (kconfTree : MenuForest) : PrinterState :=
  { kconf := []
    kconfTree := kconfTree
    defined_config_list := []
    defined_config_dict := fun _ => none
    max_level := 0
    level_size := 0
    tree := ([], none)
    print_format_params := defaultPrintFormatParams
    formats := generatePrintFormat defaultPrintFormatParams 0 }

/-- `DefConfigPrinter.load_config(self, defconfig_file)`: scan the file,
extend `defined_config_list` and write each record into
`defined_config_dict` in order. -/
def load_config (s : PrinterState) (symNames : List String) (file : List String) :
    PrinterState :=
  let config_list := loadConfigList symNames file
  { s with
    defined_config_list := s.defined_config_list ++ config_list
    defined_config_dict :=
      config_list.foldl (fun d ci => updateDict d ci.name ci) s.defined_config_dict }

/-- The `replace := False`-after-first-iteration loop of
`preload_config_files`, acting on the external collaborator's call trace. -/
def preloadGo (files : List (List String)) (replace : Bool)
    (kc : List (List String × Bool)) : List (List String × Bool) :=
  match files with
  | [] => kc
  | f :: fs => preloadGo fs false (kc ++ [(f, replace)])

/-- `DefConfigPrinter.preload_config_files(self, defconfig_files, verbose)`:
`replace = True` initially, each file is passed to the external
`self.kconf.load_config`, and `replace` is set to `False` after the first
iteration.  Nothing else on `self` is touched. -/
def preload_config_files (s : PrinterState) (files : List (List String)) : PrinterState :=
  { s with kconf := preloadGo files true s.kconf }

/-- `DefConfigPrinter.load_config_files(self, defconfig_files, replace,
verbose)`: forward every file to the external `self.kconf.load_config` with
the given `replace` flag, run the local `load_config` on every file, reset
`max_level`, rebuild `top_node` via `make_node_tree`, set
`level_size = max_level + 1` and regenerate the print format. -/
def load_config_files (s : PrinterState) (symNames : List String)
    (files : List (List String)) (replace : Bool) : PrinterState :=
  let s1 := { s with kconf := s.kconf ++ files.map (fun f => (f, replace)) }
  let s2 := files.foldl (fun st f => load_config st symNames f) s1
  let s3 := { s2 with max_level := 0 }
  let r := makeNodeTree s3.defined_config_dict s3.kconfTree none 0
             { nodes := [], maxLevel := s3.max_level }
  let s4 := { s3 with tree := (r.1.nodes, r.2), max_level := r.1.maxLevel }
  let s5 := { s4 with level_size := s4.max_level + 1 }
  { s5 with formats := generatePrintFormat s5.print_format_params s5.level_size }

/-- Where a `print(...)` call sends its text: `sink` is the `file` stream
handed down from `DefConfigPrinter.print` (`print(..., file=file)`),
`stdout` is the process standard output (a bare `print(...)`). -/
inductive Channel where
  | sink
  | stdout
deriving Repr, DecidableEq

/-- The per-node fields of a mirrored `Node` as read by the printer
(`config_string` carries the external `sym.config_string` of
`node.menu_node.item`, used for the original-config echo; modelled from
the spec as the symbol's canonical commented-out/set string form). -/
structure PNodeData where
  level : Nat
  defined : Bool
  config : Option ConfigInfo
  is_symbol : Bool
  is_choice : Bool
  is_menu : Bool
  prompt : Option String
  help : Option String
  filename : String
  linenr : Nat
  config_string : String
deriving Repr, DecidableEq

mutual
/-- A mirrored `Node` with its `list` chain of children, as traversed by
`print_node_tree` (the `next` links of sibling `Node` objects form the
surrounding `PForest`). -/
inductive PNode where
  | mk (data : PNodeData) (children : PForest)
deriving Repr, DecidableEq

/-- A chain of sibling `Node` objects linked by `next`. -/
inductive PForest where
  | nil
  | cons (n : PNode) (rest : PForest)
deriving Repr, DecidableEq
end

/-- The data of a `PNode`. -/
def PNode.data : PNode → PNodeData
  | .mk d _ => d

/-- Python truthiness of `node.prompt` (a non-`None`, nonempty string). -/
def promptTruthy (d : PNodeData) : Bool :=
  match d.prompt with
  | some p => !(p == "")
  | none => false

/-- Python truthiness of `node.help`. -/
def helpTruthy (d : PNodeData) : Bool :=
  match d.help with
  | some h => !(h == "")
  | none => false

/-- `DefConfigPrinter.print_node_prompt`. -/
def printNodePrompt (fm : PrintFormats) (d : PNodeData) : List (Channel × String) :=
  [(Channel.sink,
    formatSubst (fm.print_prompt_format.getD d.level "") [("prompt", d.prompt.getD "")])]

/-- `DefConfigPrinter.print_node_help`: wrap each line of `node.help` with
the help-line template, join them and substitute into the help template. -/
def printNodeHelp (fm : PrintFormats) (d : PNodeData) : List (Channel × String) :=
  let help_line_fmt := fm.print_help_line_format.getD d.level ""
  let help_lines := (splitOnChar '\n' (d.help.getD "").data).map
    (fun l => formatSubst help_line_fmt [("help_line", ofChars l)])
  [(Channel.sink,
    formatSubst (fm.print_help_format.getD d.level "") [("help", joinWith "\n" help_lines)])]

/-- `DefConfigPrinter.print_node_location`. -/
def printNodeLocation (fm : PrintFormats) (d : PNodeData) : List (Channel × String) :=
  [(Channel.sink,
    formatSubst (fm.print_location_format.getD d.level "")
      [("filename", d.filename), ("linenr", Nat.repr d.linenr)])]

/-- `DefConfigPrinter.print_node_comment`: when the node carries a matched
assignment, its comment is printed by a bare `print(comment)` — without
`file=file` — so the text goes to the process standard output, not to the
sink passed to `print`; it is printed even when the comment is empty. -/
def printNodeComment (d : PNodeData) : List (Channel × String) :=
  match d.config with
  | some ci => [(Channel.stdout, ci.comment)]
  | none => []

/-- `DefConfigPrinter.print_node_config`: echo the stored raw line when the
node has a matched assignment, otherwise synthesize the original-config
echo from the external symbol's `config_string` for symbol nodes. -/
def printNodeConfig (fm : PrintFormats) (d : PNodeData) : List (Channel × String) :=
  match d.config with
  | some ci => [(Channel.sink, ci.line)]
  | none =>
    if d.is_symbol then
      let config := lstripOf ['#', ' '] (rstrip d.config_string)
      [(Channel.sink,
        formatSubst (fm.print_orig_config_format.getD d.level "") [("config", config)])]
    else []

/-- The prompt/help/location block shared by `print_menu_node` and
`print_config_node` (the `if node.prompt:` group). -/
def printPromptBlock (fm : PrintFormats) (d : PNodeData) : List (Channel × String) :=
  if promptTruthy d then
    printNodePrompt fm d
      ++ (if fm.print_help && helpTruthy d then printNodeHelp fm d else [])
      ++ (if fm.print_location then printNodeLocation fm d else [])
  else []

/-- The `end of <prompt>` banner emitted by `print_menu_node` when the node
has a prompt. -/
def printMenuEnd (fm : PrintFormats) (d : PNodeData) : List (Channel × String) :=
  if promptTruthy d then
    [(Channel.sink,
      formatSubst (fm.print_menu_end_format.getD d.level "") [("prompt", d.prompt.getD "")])]
  else []

mutual
/-- `DefConfigPrinter.print_node_tree(self, node, force_print, file)`: the
`while node:` loop, skipping nodes that are neither defined nor forced. -/
def printForest (fm : PrintFormats) (f : PForest) (force : Bool) : List (Channel × String) :=
  match f with
  | .nil => []
  | .cons n rest =>
    (if n.data.defined || force then
       if n.data.is_menu then printMenuNode fm n force else printConfigNode fm n force
     else [])
      ++ printForest fm rest force

/-- `DefConfigPrinter.print_menu_node`: the recursion into `node.list`
passes `node.is_choice` as the children's force flag. -/
def printMenuNode (fm : PrintFormats) (n : PNode) (force : Bool) : List (Channel × String) :=
  match n with
  | .mk d cf =>
    let configCond := d.config.isSome || fm.print_orig_config || force
    printPromptBlock fm d
      ++ (if fm.print_comment then printNodeComment d else [])
      ++ (if configCond then printNodeConfig fm d else [])
      ++ (if promptTruthy d || configCond then [(Channel.sink, "")] else [])
      ++ (match cf with
          | .nil => []
          | .cons c rest => printForest fm (.cons c rest) d.is_choice)
      ++ printMenuEnd fm d

/-- `DefConfigPrinter.print_config_node`: the recursion into `node.list`
passes the literal `False` as the children's force flag (and emits no
end-of-menu banner). -/
def printConfigNode (fm : PrintFormats) (n : PNode) (force : Bool) : List (Channel × String) :=
  match n with
  | .mk d cf =>
    let configCond := d.config.isSome || fm.print_orig_config || force
    printPromptBlock fm d
      ++ (if fm.print_comment then printNodeComment d else [])
      ++ (if configCond then printNodeConfig fm d else [])
      ++ (if promptTruthy d || configCond then [(Channel.sink, "")] else [])
      ++ (match cf with
          | .nil => []
          | .cons c rest => printForest fm (.cons c rest) false)
end

mutual
/-- The printer as the specification sentence for claim C7 words it: a
choice node passes `forcePrint = true` to its children, and every other
node kind passes to its children the very `forcePrint` value the node
itself received. -/
def printForestSpecProp (fm : PrintFormats) (f : PForest) (force : Bool) :
    List (Channel × String) :=
  match f with
  | .nil => []
  | .cons n rest =>
    (if n.data.defined || force then
       if n.data.is_menu then printMenuNodeSpecProp fm n force
       else printConfigNodeSpecProp fm n force
     else [])
      ++ printForestSpecProp fm rest force

/-- Menu/choice case of the claim-C7 propagation rule. -/
def printMenuNodeSpecProp (fm : PrintFormats) (n : PNode) (force : Bool) :
    List (Channel × String) :=
  match n with
  | .mk d cf =>
    let configCond := d.config.isSome || fm.print_orig_config || force
    printPromptBlock fm d
      ++ (if fm.print_comment then printNodeComment d else [])
      ++ (if configCond then printNodeConfig fm d else [])
      ++ (if promptTruthy d || configCond then [(Channel.sink, "")] else [])
      ++ (match cf with
          | .nil => []
          | .cons c rest =>
            printForestSpecProp fm (.cons c rest) (if d.is_choice then true else force))
      ++ printMenuEnd fm d

/-- Non-menu case of the claim-C7 propagation rule. -/
def printConfigNodeSpecProp (fm : PrintFormats) (n : PNode) (force : Bool) :
    List (Channel × String) :=
  match n with
  | .mk d cf =>
    let configCond := d.config.isSome || fm.print_orig_config || force
    printPromptBlock fm d
      ++ (if fm.print_comment then printNodeComment d else [])
      ++ (if configCond then printNodeConfig fm d else [])
      ++ (if promptTruthy d || configCond then [(Channel.sink, "")] else [])
      ++ (match cf with
          | .nil => []
          | .cons c rest =>
            printForestSpecProp fm (.cons c rest) (if d.is_choice then true else force))
end

mutual
/-- The printer under the amended propagation rule: children of a choice
node are forced, children of every other node get `forcePrint = false`,
independent of the force value the node itself received. -/
def printForestAmended (fm : PrintFormats) (f : PForest) (force : Bool) :
    List (Channel × String) :=
  match f with
  | .nil => []
  | .cons n rest =>
    (if n.data.defined || force then
       if n.data.is_menu then printMenuNodeAmended fm n force
       else printConfigNodeAmended fm n force
     else [])
      ++ printForestAmended fm rest force

/-- Menu/choice case of the amended propagation rule. -/
def printMenuNodeAmended (fm : PrintFormats) (n : PNode) (force : Bool) :
    List (Channel × String) :=
  match n with
  | .mk d cf =>
    let configCond := d.config.isSome || fm.print_orig_config || force
    printPromptBlock fm d
      ++ (if fm.print_comment then printNodeComment d else [])
      ++ (if configCond then printNodeConfig fm d else [])
      ++ (if promptTruthy d || configCond then [(Channel.sink, "")] else [])
      ++ (match cf with
          | .nil => []
          | .cons c rest =>
            printForestAmended fm (.cons c rest) (if d.is_choice then true else false))
      ++ printMenuEnd fm d

/-- Non-menu case of the amended propagation rule. -/
def printConfigNodeAmended (fm : PrintFormats) (n : PNode) (force : Bool) :
    List (Channel × String) :=
  match n with
  | .mk d cf =>
    let configCond := d.config.isSome || fm.print_orig_config || force
    printPromptBlock fm d
      ++ (if fm.print_comment then printNodeComment d else [])
      ++ (if configCond then printNodeConfig fm d else [])
      ++ (if promptTruthy d || configCond then [(Channel.sink, "")] else [])
      ++ (match cf with
          | .nil => []
          | .cons c rest =>
            printForestAmended fm (.cons c rest) (if d.is_choice then true else false))
end

mutual
/-- In the trees this program builds, every choice node is also a menu node
(`is_menu` is `menu_node.item is MENU or menu_node.is_menuconfig`, and the
external kconfiglib sets `is_menuconfig` on every choice menu node). -/
def choicesAreMenusN : PNode → Bool
  | .mk d cf => (!d.is_choice || d.is_menu) && choicesAreMenusF cf

/-- `choicesAreMenusN` over a sibling chain. -/
def choicesAreMenusF : PForest → Bool
  | .nil => true
  | .cons n rest => choicesAreMenusN n && choicesAreMenusF rest
end

example :
    loadConfigList [] ["# hello", "CONFIG_FOO=y", "", "# CONFIG_BAR is not set"] =
      [{ name := "FOO", line := "CONFIG_FOO=y", hasSymbol := false, comment := "# hello" },
       { name := "BAR", line := "# CONFIG_BAR is not set", hasSymbol := false, comment := "" }] := by
  rfl

/-! Helper lemmas about the assignment-table fold. -/

/-- The record that last assigned `name`, scanning `recs` left to right. -/
def lastRecordFor (name : String) (recs : List ConfigInfo) : Option ConfigInfo :=
  recs.foldl (fun acc ci => if ci.name = name then some ci else acc) none

theorem foldl_last_start (name : String) (recs : List ConfigInfo) :
    ∀ a : Option ConfigInfo,
      recs.foldl (fun acc ci => if ci.name = name then some ci else acc) a =
        match recs.foldl (fun acc ci => if ci.name = name then some ci else acc) none with
        | some ci => some ci
        | none => a := by
  induction recs with
  | nil => intro a; rfl
  | cons ci rest ih =>
    intro a
    simp only [List.foldl_cons]
    rw [ih (if ci.name = name then some ci else a),
        ih (if ci.name = name then some ci else none)]
    cases hrest : rest.foldl (fun acc ci => if ci.name = name then some ci else acc) none with
    | some c => rfl
    | none => by_cases h : ci.name = name <;> simp [h]

theorem dict_fold_lookup (recs : List ConfigInfo) :
    ∀ (d : String → Option ConfigInfo) (name : String),
      (recs.foldl (fun d ci => updateDict d ci.name ci) d) name =
        match lastRecordFor name recs with
        | some ci => some ci
        | none => d name := by
  induction recs with
  | nil => intro d name; rfl
  | cons ci rest ih =>
    intro d name
    simp only [List.foldl_cons]
    rw [ih]
    have h2 : lastRecordFor name (ci :: rest) =
        match lastRecordFor name rest with
        | some c => some c
        | none => if ci.name = name then some ci else none := by
      have h3 := foldl_last_start name rest (if ci.name = name then some ci else none)
      simpa [lastRecordFor, List.foldl_cons] using h3
    rw [h2]
    cases hl : lastRecordFor name rest with
    | some c => rfl
    | none =>
      by_cases h : ci.name = name
      · simp only [updateDict]
        rw [if_pos h, if_pos h.symm]
      · simp only [updateDict]
        rw [if_neg h, if_neg (fun hc => h hc.symm)]

/-- Effect of the `for defconfig_file in defconfig_files: self.load_config`
loop on the two table fields: records of all files are concatenated. -/
theorem load_config_loop_table (symNames : List String) (files : List (List String)) :
    ∀ s : PrinterState,
      ((files.foldl (fun st f => load_config st symNames f) s).defined_config_list =
        s.defined_config_list ++ (files.map (loadConfigList symNames)).flatten)
      ∧ ((files.foldl (fun st f => load_config st symNames f) s).defined_config_dict =
        ((files.map (loadConfigList symNames)).flatten).foldl
          (fun d ci => updateDict d ci.name ci) s.defined_config_dict) := by
  induction files with
  | nil => intro s; simp
  | cons f rest ih =>
    intro s
    simp only [List.foldl_cons, List.map_cons, List.flatten_cons]
    constructor
    · rw [(ih (load_config s symNames f)).1]
      simp [load_config, List.append_assoc]
    · rw [(ih (load_config s symNames f)).2]
      simp [load_config, List.foldl_append]

/-- The remaining steps of `load_config_files` (resetting `max_level`,
rebuilding the tree, regenerating formats) do not touch the table. -/
theorem load_config_files_table (s : PrinterState) (symNames : List String)
    (files : List (List String)) (replace : Bool) :
    ((load_config_files s symNames files replace).defined_config_list =
        s.defined_config_list ++ (files.map (loadConfigList symNames)).flatten)
    ∧ ((load_config_files s symNames files replace).defined_config_dict =
        ((files.map (loadConfigList symNames)).flatten).foldl
          (fun d ci => updateDict d ci.name ci) s.defined_config_dict) := by
  unfold load_config_files
  exact load_config_loop_table symNames files _

/-! Helper lemmas about the scanning loop of `load_config`. -/

theorem loadStep_clear (symNames : List String) (acc : List String × List ConfigInfo)
    (b : String) (hs : setMatch (rstrip b) = none) (hu : unsetMatch (rstrip b) = none)
    (hc : commentMatch (rstrip b) = false) :
    loadStep symNames acc b = ([], acc.2) := by
  simp [loadStep, hs, hu, hc]

theorem loadStep_comment (symNames : List String) (acc : List String × List ConfigInfo)
    (l : String) (hs : setMatch (rstrip l) = none) (hu : unsetMatch (rstrip l) = none)
    (hc : commentMatch (rstrip l) = true) :
    loadStep symNames acc l = (acc.1 ++ [rstrip l], acc.2) := by
  simp [loadStep, hs, hu, hc]

theorem loadStep_record (symNames : List String) (acc : List String × List ConfigInfo)
    (a : String)
    (ha : (setMatch (rstrip a)).isSome = true ∨ (unsetMatch (rstrip a)).isSome = true) :
    ∃ ci, loadStep symNames acc a = ([], acc.2 ++ [ci])
      ∧ ci.comment = joinWith "\n" acc.1 ∧ ci.line = rstrip a := by
  cases hsm : setMatch (rstrip a) with
  | some v =>
    refine ⟨⟨v.1, rstrip a, symNames.contains v.1, joinWith "\n" acc.1⟩, ?_, rfl, rfl⟩
    obtain ⟨n, val⟩ := v
    simp [loadStep, hsm]
  | none =>
    cases hum : unsetMatch (rstrip a) with
    | some n =>
      refine ⟨⟨n, rstrip a, symNames.contains n, joinWith "\n" acc.1⟩, ?_, rfl, rfl⟩
      simp [loadStep, hsm, hum]
    | none =>
      rcases ha with ha | ha <;> simp [hsm, hum] at ha

/-- The comment buffer never depends on the records accumulated so far, and
the records accumulate by appending. -/
theorem loadStep_start (symNames : List String) (acc : List String × List ConfigInfo)
    (x : String) :
    loadStep symNames acc x =
      ((loadStep symNames (acc.1, []) x).1, acc.2 ++ (loadStep symNames (acc.1, []) x).2) := by
  cases hsm : setMatch (rstrip x) with
  | some v => obtain ⟨n, val⟩ := v; simp [loadStep, hsm]
  | none =>
    cases hum : unsetMatch (rstrip x) with
    | some n => simp [loadStep, hsm, hum]
    | none => by_cases hc : commentMatch (rstrip x) <;> simp [loadStep, hsm, hum, hc]

theorem loadFold_start (symNames : List String) (lines : List String) :
    ∀ acc : List String × List ConfigInfo,
      lines.foldl (loadStep symNames) acc =
        ((lines.foldl (loadStep symNames) (acc.1, [])).1,
          acc.2 ++ (lines.foldl (loadStep symNames) (acc.1, [])).2) := by
  induction lines with
  | nil => intro acc; simp
  | cons x xs ih =>
    intro acc
    simp only [List.foldl_cons]
    rw [ih (loadStep symNames acc x), ih (loadStep symNames (acc.1, []) x)]
    rw [loadStep_start symNames acc x]
    simp [List.append_assoc]

/-- Scanning a block of pure comment lines appends their rstripped text to
the comment buffer and produces no record. -/
theorem loadFold_comment_block (symNames : List String) (block : List String)
    (hb : ∀ l ∈ block, setMatch (rstrip l) = none ∧ unsetMatch (rstrip l) = none
          ∧ commentMatch (rstrip l) = true) :
    ∀ (c : List String) (r : List ConfigInfo),
      block.foldl (loadStep symNames) (c, r) = (c ++ block.map rstrip, r) := by
  induction block with
  | nil => intro c r; simp
  | cons l ls ih =>
    intro c r
    obtain ⟨hs, hu, hc⟩ := hb l (by simp)
    simp only [List.foldl_cons, List.map_cons]
    rw [loadStep_comment symNames (c, r) l hs hu hc]
    rw [ih (fun x hx => hb x (by simp [hx])) (c ++ [rstrip l]) r]
    simp

/-- After a record line `a`, the record list extends by exactly one record
carrying the pending comment buffer, whatever the rest of the file is. -/
theorem loadFold_record_head (symNames : List String) (c : List String)
    (r : List ConfigInfo) (a : String) (post : List String)
    (ha : (setMatch (rstrip a)).isSome = true ∨ (unsetMatch (rstrip a)).isSome = true) :
    ∃ ci tail, ((a :: post).foldl (loadStep symNames) (c, r)).2 = r ++ ci :: tail
      ∧ ci.comment = joinWith "\n" c ∧ ci.line = rstrip a := by
  obtain ⟨ci, hstep, hcom, hline⟩ := loadStep_record symNames (c, r) a ha
  refine ⟨ci, (post.foldl (loadStep symNames) (([] : List String), [])).2, ?_, hcom, hline⟩
  simp only [List.foldl_cons, hstep]
  rw [loadFold_start symNames post (([] : List String), r ++ [ci])]
  simp [List.append_assoc]

/-- Every record scanned from a file takes its `line` from some input line,
rstripped. -/
theorem loadStep_mem (symNames : List String) (acc : List String × List ConfigInfo)
    (x : String) (ci : ConfigInfo) (h : ci ∈ (loadStep symNames acc x).2) :
    ci ∈ acc.2 ∨ ci.line = rstrip x := by
  cases hsm : setMatch (rstrip x) with
  | some v =>
    obtain ⟨n, val⟩ := v
    simp [loadStep, hsm] at h
    rcases h with h | h
    · exact Or.inl h
    · right; rw [h]
  | none =>
    cases hum : unsetMatch (rstrip x) with
    | some n =>
      simp [loadStep, hsm, hum] at h
      rcases h with h | h
      · exact Or.inl h
      · right; rw [h]
    | none =>
      by_cases hc : commentMatch (rstrip x) <;> simp [loadStep, hsm, hum, hc] at h <;>
        exact Or.inl h

theorem loadFold_line_source (symNames : List String) (lines : List String) :
    ∀ acc : List String × List ConfigInfo, ∀ ci ∈ (lines.foldl (loadStep symNames) acc).2,
      ci ∈ acc.2 ∨ ∃ raw ∈ lines, ci.line = rstrip raw := by
  induction lines with
  | nil => intro acc ci hci; exact Or.inl hci
  | cons x xs ih =>
    intro acc ci hci
    simp only [List.foldl_cons] at hci
    rcases ih (loadStep symNames acc x) ci hci with h | ⟨raw, hraw, hline⟩
    · rcases loadStep_mem symNames acc x ci h with h2 | h2
      · exact Or.inl h2
      · exact Or.inr ⟨x, by simp, h2⟩
    · exact Or.inr ⟨raw, by simp [hraw], hline⟩

/-- C1 counterexample scenario: two successive `load_config_files` calls,
both with `replace = True`. -/
def c1Scenario : PrinterState :=
  load_config_files
    (load_config_files (mkPrinterState .nil) [] [["CONFIG_FOO=y"]] true)
    [] [["CONFIG_BAR=y"]] true

/-- C1: the claim is false: after `load_config_files(files, replace=True)`
the name-keyed table may still contain a name that appears in no record of
the files just loaded.  Concretely, load `CONFIG_FOO=y` with replace, then
load a file containing only `CONFIG_BAR=y` with replace: `FOO` is still in
`defined_config_dict`, while the records of the file just loaded name only
`BAR`. -/
theorem c1_replace_does_not_clear_cex :
    (c1Scenario.defined_config_dict "FOO").isSome = true
    ∧ (loadConfigList [] ["CONFIG_BAR=y"]).map ConfigInfo.name = ["BAR"]
    ∧ "FOO" ∉ (loadConfigList [] ["CONFIG_BAR=y"]).map ConfigInfo.name := by
  refine ⟨by rfl, by rfl, by decide⟩

/-- C1 (amended): `load_config_files` never clears the name-keyed table —
the `replace` flag is only forwarded to the external `kconf.load_config`.
After the call, `defined_config_dict[name]` is the last record for `name`
among the records of the files just loaded, and a name none of those
records touch keeps its previous entry; `defined_config_list` is extended
with all new records in order. -/
theorem c1_table_fold_amended (s : PrinterState) (symNames : List String)
    (files : List (List String)) (replace : Bool) :
    (∀ name,
      (load_config_files s symNames files replace).defined_config_dict name =
        match lastRecordFor name ((files.map (loadConfigList symNames)).flatten) with
        | some ci => some ci
        | none => s.defined_config_dict name)
    ∧ ((load_config_files s symNames files replace).defined_config_list =
        s.defined_config_list ++ (files.map (loadConfigList symNames)).flatten) := by
  constructor
  · intro name
    rw [(load_config_files_table s symNames files replace).2]
    exact dict_fold_lookup _ _ name
  · exact (load_config_files_table s symNames files replace).1

/-- C3: the claim is false: `preload_config_files` applies `replace=true`
only to the first file; every subsequent file is applied with
`replace=false`.  With two preload files the external collaborator sees
the flags `[true, false]`, not `[true, true]`. -/
theorem c3_preload_flags_cex :
    ((preload_config_files (mkPrinterState .nil)
        [["CONFIG_A=y"], ["CONFIG_B=y"]]).kconf.map Prod.snd) = [true, false]
    ∧ ((preload_config_files (mkPrinterState .nil)
        [["CONFIG_A=y"], ["CONFIG_B=y"]]).kconf.map Prod.snd) ≠ [true, true] := by
  refine ⟨by rfl, by decide⟩

theorem preloadGo_false (files : List (List String)) :
    ∀ kc, preloadGo files false kc = kc ++ files.map (fun f => (f, false)) := by
  induction files with
  | nil => intro kc; simp [preloadGo]
  | cons f rest ih => intro kc; simp [preloadGo, ih]

/-- C3 (amended): `preload_config_files` forwards the first preload file to
the external `kconf.load_config` with `replace=true` and every subsequent
preload file with `replace=false`, so later preload files merge over the
first instead of replacing the whole state. -/
theorem c3_preload_flags_amended (s : PrinterState) (files : List (List String)) :
    (preload_config_files s files).kconf =
      s.kconf ++
        (match files with
         | [] => []
         | f :: fs => (f, true) :: fs.map (fun x => (x, false))) := by
  cases files with
  | nil => simp [preload_config_files, preloadGo]
  | cons f fs => simp [preload_config_files, preloadGo, preloadGo_false]

/-- C9: `preload_config_files` mutates only the external Kconfig
collaborator's state: the assignment table (`defined_config_list`,
`defined_config_dict`), the annotated tree (`top_node` and the level
bookkeeping) and the print formats are all left unchanged, so an option
assigned only in preload files can neither mark a tree node as defined nor
have its raw line echoed by the printer. -/
theorem c9_preload_frame (s : PrinterState) (files : List (List String)) :
    ((preload_config_files s files).defined_config_list = s.defined_config_list)
    ∧ ((preload_config_files s files).defined_config_dict = s.defined_config_dict)
    ∧ ((preload_config_files s files).tree = s.tree)
    ∧ ((preload_config_files s files).max_level = s.max_level)
    ∧ ((preload_config_files s files).level_size = s.level_size)
    ∧ ((preload_config_files s files).print_format_params = s.print_format_params)
    ∧ ((preload_config_files s files).formats = s.formats)
    ∧ ((preload_config_files s files).kconfTree = s.kconfTree) := by
  exact ⟨rfl, rfl, rfl, rfl, rfl, rfl, rfl, rfl⟩

/-- C8: the code contradicts the intended routing: for a node carrying a
matched assignment with a non-empty preceding comment, `print_node_comment`
emits the comment on the process standard output (a bare `print(comment)`)
instead of the sink passed to `print`; moreover it emits even when the
comment is empty.  (The spec itself flags the sink routing as a bug to
fix.) -/
theorem c8_comment_goes_to_stdout :
    (printNodeComment
        { level := 1, defined := true,
          config := some { name := "FOO", line := "CONFIG_FOO=y", hasSymbol := true,
                           comment := "# why FOO is set" },
          is_symbol := true, is_choice := false, is_menu := false,
          prompt := some "Foo", help := none, filename := "Kconfig", linenr := 3,
          config_string := "CONFIG_FOO=y\n" } =
      [(Channel.stdout, "# why FOO is set")])
    ∧ Channel.stdout ≠ Channel.sink
    ∧ (printNodeComment
        { level := 1, defined := true,
          config := some { name := "FOO", line := "CONFIG_FOO=y", hasSymbol := true,
                           comment := "" },
          is_symbol := true, is_choice := false, is_menu := false,
          prompt := some "Foo", help := none, filename := "Kconfig", linenr := 3,
          config_string := "CONFIG_FOO=y\n" } =
      [(Channel.stdout, "")]) := by
  exact ⟨rfl, by decide, rfl⟩

/-- C5: the claim is false: the attachment is not verbatim.  `load_config`
rstrips every line before buffering it, so a comment line carrying trailing
whitespace is attached with that whitespace removed.  Concretely, scanning
the two-line file `"# one  "` (two trailing spaces), `"CONFIG_B=y"` yields a
single record whose comment is `"# one"`, which differs from the verbatim
newline-join of the comment block. -/
theorem c5_verbatim_attachment_cex :
    ((loadConfigList [] ["# one  ", "CONFIG_B=y"]).map ConfigInfo.comment = ["# one"])
    ∧ joinWith "\n" ["# one  "] = "# one  "
    ∧ "# one" ≠ "# one  " := by
  refine ⟨by rfl, by rfl, by decide⟩

/-- C5 (amended): a maximal block of contiguous comment lines immediately
followed by an assignment or unset line is attached, newline-joined in
original order, as that record's comment, but with each comment line
rstripped first (`load_config` rstrips every line before buffering it), so
the attachment is verbatim exactly when no comment line carries trailing
whitespace ("maximal" is expressed by the pending buffer being empty when
the block starts); and any blank/unrecognized line directly before the
record line leaves that record's comment empty. -/
theorem c5_comment_attachment_amended :
    (∀ (symNames : List String) (pre block post : List String) (a : String),
      (∀ l ∈ block, setMatch (rstrip l) = none ∧ unsetMatch (rstrip l) = none
        ∧ commentMatch (rstrip l) = true) →
      ((setMatch (rstrip a)).isSome = true ∨ (unsetMatch (rstrip a)).isSome = true) →
      (loadFold symNames pre).1 = [] →
      ∃ ci, (loadConfigList symNames (pre ++ block ++ a :: post))[(loadConfigList symNames pre).length]? = some ci
        ∧ ci.comment = joinWith "\n" (block.map rstrip))
    ∧ (∀ (symNames : List String) (pre post : List String) (b a : String),
      setMatch (rstrip b) = none → unsetMatch (rstrip b) = none →
      commentMatch (rstrip b) = false →
      ((setMatch (rstrip a)).isSome = true ∨ (unsetMatch (rstrip a)).isSome = true) →
      ∃ ci, (loadConfigList symNames (pre ++ b :: a :: post))[(loadConfigList symNames pre).length]? = some ci
        ∧ ci.comment = "") := by
  constructor
  · intro symNames pre block post a hb ha hmax
    obtain ⟨ci, tail, hrec, hcom, _⟩ :=
      loadFold_record_head symNames (block.map rstrip)
        ((pre.foldl (loadStep symNames) ([], [])).2) a post ha
    refine ⟨ci, ?_, by rw [hcom]⟩
    show (loadFold symNames (pre ++ block ++ a :: post)).2[(loadFold symNames pre).2.length]? = some ci
    unfold loadFold
    rw [List.foldl_append, List.foldl_append]
    have hS : pre.foldl (loadStep symNames) ([], []) =
        (([] : List String), (pre.foldl (loadStep symNames) ([], [])).2) := by
      conv_lhs => rw [← Prod.mk.eta (p := pre.foldl (loadStep symNames) ([], []))]
      rw [show (pre.foldl (loadStep symNames) ([], [])).1 = ([] : List String) from hmax]
    rw [hS, loadFold_comment_block symNames block hb [] _]
    simp only [List.nil_append]
    rw [hrec, List.getElem?_append_right (Nat.le_refl _)]
    simp
  · intro symNames pre post b a hs hu hc ha
    obtain ⟨ci, tail, hrec, hcom, _⟩ :=
      loadFold_record_head symNames [] ((pre.foldl (loadStep symNames) ([], [])).2) a post ha
    refine ⟨ci, ?_, by rw [hcom]; rfl⟩
    show (loadFold symNames (pre ++ b :: a :: post)).2[(loadFold symNames pre).2.length]? = some ci
    unfold loadFold
    rw [List.foldl_append]
    have hstep := loadStep_clear symNames (pre.foldl (loadStep symNames) ([], [])) b hs hu hc
    have hsplit : List.foldl (loadStep symNames) (pre.foldl (loadStep symNames) ([], []))
          (b :: a :: post) =
        List.foldl (loadStep symNames)
          (([] : List String), (pre.foldl (loadStep symNames) ([], [])).2) (a :: post) := by
      rw [List.foldl_cons, hstep]
    rw [hsplit, hrec, List.getElem?_append_right (Nat.le_refl _)]
    simp

/-- C5 witness: a two-line comment block whose first line carries trailing
whitespace attaches rstripped to the following assignment, and a blank line
before an assignment leaves its comment empty. -/
theorem c5_amended_witness :
    (∃ ci, (loadConfigList [] (["CONFIG_A=y"] ++ ["# one  ", "# two"] ++ "CONFIG_B=y" :: []))[(loadConfigList [] ["CONFIG_A=y"]).length]? = some ci
      ∧ ci.comment = joinWith "\n" (["# one  ", "# two"].map rstrip))
    ∧ (∃ ci, (loadConfigList [] (["# lost comment"] ++ "" :: "CONFIG_B=y" :: []))[(loadConfigList [] ["# lost comment"]).length]? = some ci
      ∧ ci.comment = "") := by
  constructor
  · exact c5_comment_attachment_amended.1 [] ["CONFIG_A=y"] ["# one  ", "# two"] [] "CONFIG_B=y"
      (by decide) (by decide) (by rfl)
  · exact c5_comment_attachment_amended.2 [] ["# lost comment"] [] "" "CONFIG_B=y"
      (by rfl) (by rfl) (by rfl) (by decide)

/-- A `PrintFormats` value with empty template lists (sufficient for the
parts of the printer that do not consult templates). -/
def emptyFormats : PrintFormats :=
  { print_first_level := 1
    print_comment := false
    print_help := false
    print_orig_config := false
    print_location := false
    print_prompt_format := []
    print_menu_end_format := []
    print_location_format := []
    print_help_format := []
    print_help_line_format := []
    print_orig_config_format := [] }

/-- C6: the claim is false as stated: the loader rstrips every line before
storing it, so for a raw snapshot line with trailing whitespace the echoed
config line differs from the original raw line byte-for-byte. -/
theorem c6_round_trip_cex :
    loadConfigList [] ["CONFIG_FOO=y "] =
      [{ name := "FOO", line := "CONFIG_FOO=y", hasSymbol := false, comment := "" }]
    ∧ printNodeConfig emptyFormats
        { level := 0, defined := true,
          config := some { name := "FOO", line := "CONFIG_FOO=y", hasSymbol := false,
                           comment := "" },
          is_symbol := true, is_choice := false, is_menu := false,
          prompt := some "Foo", help := none, filename := "Kconfig", linenr := 1,
          config_string := "CONFIG_FOO=y\n" } =
        [(Channel.sink, "CONFIG_FOO=y")]
    ∧ "CONFIG_FOO=y" ≠ "CONFIG_FOO=y " := by
  refine ⟨by rfl, by rfl, by decide⟩

/-- C6 (amended): for a node with a matched assignment the printer emits
exactly the stored line, which is the original raw input line with
trailing whitespace removed; the echo is byte-for-byte whenever the raw
line carries no trailing whitespace. -/
theorem c6_round_trip_amended (fm : PrintFormats) (d : PNodeData) (symNames : List String)
    (lines : List String) (ci : ConfigInfo)
    (hci : ci ∈ loadConfigList symNames lines) (hconfig : d.config = some ci) :
    printNodeConfig fm d = [(Channel.sink, ci.line)]
    ∧ ∃ raw ∈ lines, ci.line = rstrip raw ∧ (rstrip raw = raw → ci.line = raw) := by
  constructor
  · simp [printNodeConfig, hconfig]
  · have hsrc := loadFold_line_source symNames lines (([], []) : List String × List ConfigInfo)
      ci hci
    rcases hsrc with h | ⟨raw, hraw, hline⟩
    · simp at h
    · exact ⟨raw, hraw, hline, fun hr => hline.trans hr⟩

/-- C6 witness: a concrete loaded line, echoed byte-for-byte (no trailing
whitespace). -/
theorem c6_witness :
    printNodeConfig emptyFormats
      { level := 0, defined := true,
        config := some { name := "X", line := "CONFIG_X=y", hasSymbol := false, comment := "" },
        is_symbol := true, is_choice := false, is_menu := false,
        prompt := none, help := none, filename := "Kconfig", linenr := 1,
        config_string := "CONFIG_X=y\n" } =
      [(Channel.sink, ("CONFIG_X=y" : String))]
    ∧ ∃ raw ∈ ["CONFIG_X=y"],
        ({ name := "X", line := "CONFIG_X=y", hasSymbol := false, comment := "" } : ConfigInfo).line = rstrip raw
        ∧ (rstrip raw = raw →
            ({ name := "X", line := "CONFIG_X=y", hasSymbol := false, comment := "" } : ConfigInfo).line = raw) :=
  c6_round_trip_amended emptyFormats
    { level := 0, defined := true,
      config := some { name := "X", line := "CONFIG_X=y", hasSymbol := false, comment := "" },
      is_symbol := true, is_choice := false, is_menu := false,
      prompt := none, help := none, filename := "Kconfig", linenr := 1,
      config_string := "CONFIG_X=y\n" }
    [] ["CONFIG_X=y"]
    { name := "X", line := "CONFIG_X=y", hasSymbol := false, comment := "" }
    (by decide) (by rfl)

/-! C7: force propagation to children. -/

/-- A defined (or, in the trees the builder makes, any) choice node carries
`is_menu` whenever the `choicesAreMenus` well-formedness predicate holds. -/
theorem choicesAreMenusN_head (n : PNode) (h : choicesAreMenusN n = true) :
    (!n.data.is_choice || n.data.is_menu) = true := by
  cases n with
  | mk d cf =>
    simp only [choicesAreMenusN, Bool.and_eq_true] at h
    simpa [PNode.data] using h.1

mutual
/-- The code printer agrees with the amended propagation rule (choice
children forced, all other children unforced) on trees where every choice
node is a menu node. -/
theorem printForest_eq_amended (fm : PrintFormats) (f : PForest) (force : Bool)
    (h : choicesAreMenusF f = true) :
    printForest fm f force = printForestAmended fm f force := by
  cases f with
  | nil => rfl
  | cons n rest =>
    have hN : choicesAreMenusN n = true := by
      simp only [choicesAreMenusF, Bool.and_eq_true] at h; exact h.1
    have hrest : choicesAreMenusF rest = true := by
      simp only [choicesAreMenusF, Bool.and_eq_true] at h; exact h.2
    simp only [printForest, printForestAmended]
    rw [printForest_eq_amended fm rest force hrest]
    cases hD : (n.data.defined || force) with
    | false => simp [hD]
    | true =>
      cases hm : n.data.is_menu with
      | true =>
        simp only [hD, hm, if_true]
        rw [printMenuNode_eq_amended fm n force hN]
      | false =>
        have hchoice : n.data.is_choice = false := by
          have hcm := choicesAreMenusN_head n hN
          cases hc2 : n.data.is_choice
          · rfl
          · rw [hc2, hm] at hcm; simp at hcm
        simp only [hD, hm, if_true, Bool.false_eq_true, if_false]
        rw [printConfigNode_eq_amended fm n force hN hchoice]

/-- Menu-node case of `printForest_eq_amended`. -/
theorem printMenuNode_eq_amended (fm : PrintFormats) (n : PNode) (force : Bool)
    (h : choicesAreMenusN n = true) :
    printMenuNode fm n force = printMenuNodeAmended fm n force := by
  cases n with
  | mk d cf =>
    simp only [choicesAreMenusN, Bool.and_eq_true] at h
    cases cf with
    | nil => rfl
    | cons c rest =>
      have hrw : (if d.is_choice then true else false) = d.is_choice := by
        cases d.is_choice <;> rfl
      simp only [printMenuNode, printMenuNodeAmended, hrw]
      congr 1
      congr 1
      exact printForest_eq_amended fm (.cons c rest) d.is_choice h.2

/-- Non-menu-node case of `printForest_eq_amended` (the dispatcher only
reaches it for non-choice nodes). -/
theorem printConfigNode_eq_amended (fm : PrintFormats) (n : PNode) (force : Bool)
    (h : choicesAreMenusN n = true) (hchoice : n.data.is_choice = false) :
    printConfigNode fm n force = printConfigNodeAmended fm n force := by
  cases n with
  | mk d cf =>
    simp only [choicesAreMenusN, Bool.and_eq_true] at h
    simp only [PNode.data] at hchoice
    cases cf with
    | nil => rfl
    | cons c rest =>
      have hrw : (if d.is_choice then true else false) = false := by rw [hchoice]; rfl
      simp only [printConfigNode, printConfigNodeAmended, hrw]
      congr 1
      exact printForest_eq_amended fm (.cons c rest) false h.2
end

/-- Formats for the C7 counterexample: distinct prompt banners per level,
everything optional disabled. -/
def c7fm : PrintFormats :=
  { print_first_level := 1
    print_comment := false
    print_help := false
    print_orig_config := false
    print_location := false
    print_prompt_format := ["P0", "P1", "P2"]
    print_menu_end_format := ["E0", "E1", "E2"]
    print_location_format := ["", "", ""]
    print_help_format := ["", "", ""]
    print_help_line_format := ["", "", ""]
    print_orig_config_format := ["", "", ""] }

/-- C7 counterexample tree: a defined choice whose (undefined) child symbol
has its own undefined child. -/
def c7tree : PForest :=
  .cons
    (.mk
      { level := 0, defined := true, config := none, is_symbol := false,
        is_choice := true, is_menu := true, prompt := none, help := none,
        filename := "K", linenr := 1, config_string := "" }
      (.cons
        (.mk
          { level := 1, defined := false, config := none, is_symbol := true,
            is_choice := false, is_menu := false, prompt := some "S", help := none,
            filename := "K", linenr := 2, config_string := "" }
          (.cons
            (.mk
              { level := 2, defined := false, config := none, is_symbol := true,
                is_choice := false, is_menu := false, prompt := some "G", help := none,
                filename := "K", linenr := 3, config_string := "" }
              .nil)
            .nil))
        .nil))
    .nil

/-- C7: the claim is false: `print_config_node` passes the literal `False`
to its children (line 202), not the force value it received, so a forced
non-choice node under a choice does not force its own children.  On the
concrete tree the code's output differs from the output prescribed by the
claimed propagation rule. -/
theorem c7_force_propagation_cex :
    printForest c7fm c7tree false ≠ printForestSpecProp c7fm c7tree false := by
  decide

/-- C7 (amended): when the printer recurses into a visible node's children,
a choice node passes forcePrint=true to its children, and every other node
kind passes forcePrint=false — regardless of the force value the node
itself received (stated for trees where choice nodes are menu nodes, as
kconfiglib guarantees). -/
theorem c7_force_propagation_amended (fm : PrintFormats) (f : PForest) (force : Bool)
    (h : choicesAreMenusF f = true) :
    printForest fm f force = printForestAmended fm f force :=
  printForest_eq_amended fm f force h

/-- C7 witness: the amended rule applied to the counterexample tree. -/
theorem c7_witness : printForest c7fm c7tree false = printForestAmended c7fm c7tree false :=
  c7_force_propagation_amended c7fm c7tree false (by decide)

/-! Foundation lemmas about the builder's arena operations. -/

theorem updateAt_length (f : NodeRec → NodeRec) (nodes : List NodeRec) (i : Nat) :
    (updateAt f nodes i).length = nodes.length := by
  unfold updateAt
  cases h : nodes[i]? <;> simp

theorem updateAt_getElem? (f : NodeRec → NodeRec) (nodes : List NodeRec) (i j : Nat) :
    (updateAt f nodes i)[j]? =
      if j = i then (nodes[j]?).map f else nodes[j]? := by
  unfold updateAt
  by_cases hji : j = i
  · subst hji
    cases h : nodes[j]? with
    | none => simp [h]
    | some n =>
      simp [h, List.getElem?_set_self', Function.const]
  · cases h : nodes[i]? with
    | none => simp [hji]
    | some n => simp [List.getElem?_set_ne (fun he => hji he.symm), hji]

theorem setDefinedAt_length (nodes : List NodeRec) (i : Nat) :
    (setDefinedAt nodes i).length = nodes.length := updateAt_length _ nodes i

theorem setDefinedAt_getElem? (nodes : List NodeRec) (i j : Nat) :
    (setDefinedAt nodes i)[j]? =
      if j = i then (nodes[j]?).map (fun n => { n with defined := true }) else nodes[j]? :=
  updateAt_getElem? _ nodes i j

theorem setMatchedAt_length (nodes : List NodeRec) (i : Nat) (ci : ConfigInfo) :
    (setMatchedAt nodes i ci).length = nodes.length := updateAt_length _ nodes i

theorem setMatchedAt_getElem? (nodes : List NodeRec) (i : Nat) (ci : ConfigInfo) (j : Nat) :
    (setMatchedAt nodes i ci)[j]? =
      if j = i then (nodes[j]?).map (fun n => { n with defined := true, config := some ci })
      else nodes[j]? :=
  updateAt_getElem? _ nodes i j

theorem setChildAt_length (nodes : List NodeRec) (i : Nat) (c : Option Nat) :
    (setChildAt nodes i c).length = nodes.length := updateAt_length _ nodes i

theorem setChildAt_getElem? (nodes : List NodeRec) (i : Nat) (c : Option Nat) (j : Nat) :
    (setChildAt nodes i c)[j]? =
      if j = i then (nodes[j]?).map (fun n => { n with child := c }) else nodes[j]? :=
  updateAt_getElem? _ nodes i j

theorem setNextAt_length (nodes : List NodeRec) (i : Nat) (nx : Option Nat) :
    (setNextAt nodes i nx).length = nodes.length := updateAt_length _ nodes i

theorem setNextAt_getElem? (nodes : List NodeRec) (i : Nat) (nx : Option Nat) (j : Nat) :
    (setNextAt nodes i nx)[j]? =
      if j = i then (nodes[j]?).map (fun n => { n with next := nx }) else nodes[j]? :=
  updateAt_getElem? _ nodes i j

theorem getElem?_lt_of_some {nodes : List NodeRec} {j : Nat} {n : NodeRec}
    (h : nodes[j]? = some n) : j < nodes.length := by
  by_contra hge
  rw [List.getElem?_eq_none (Nat.le_of_not_lt hge)] at h
  exact Option.noConfusion h

/-- Entries already in the arena only ever have their `defined` flag raised
by the builder; length never shrinks. -/
structure ExtendsMono (old new : List NodeRec) : Prop where
  length_le : old.length ≤ new.length
  entry : ∀ (j : Nat) (n : NodeRec), old[j]? = some n →
    ∃ b : Bool, new[j]? = some { n with defined := b } ∧ (n.defined = true → b = true)

theorem extendsMono_refl (nodes : List NodeRec) : ExtendsMono nodes nodes :=
  ⟨Nat.le_refl _, fun _ n h => ⟨n.defined, h, fun hb => hb⟩⟩

theorem extendsMono_trans {a b c : List NodeRec} (h1 : ExtendsMono a b)
    (h2 : ExtendsMono b c) : ExtendsMono a c := by
  refine ⟨Nat.le_trans h1.length_le h2.length_le, fun j n h => ?_⟩
  obtain ⟨b1, hb1, hm1⟩ := h1.entry j n h
  obtain ⟨b2, hb2, hm2⟩ := h2.entry j _ hb1
  exact ⟨b2, hb2, fun hd => hm2 (hm1 hd)⟩

theorem extendsMono_append (nodes : List NodeRec) (x : NodeRec) :
    ExtendsMono nodes (nodes ++ [x]) := by
  refine ⟨by simp, fun j n h => ?_⟩
  have hlt : j < nodes.length := getElem?_lt_of_some h
  refine ⟨n.defined, ?_, fun hb => hb⟩
  rw [List.getElem?_append, if_pos hlt]
  exact h

theorem setDefinedAt_extendsMono (nodes : List NodeRec) (i : Nat) :
    ExtendsMono nodes (setDefinedAt nodes i) := by
  refine ⟨by rw [setDefinedAt_length], fun j n h => ?_⟩
  rw [setDefinedAt_getElem?]
  by_cases hji : j = i
  · rw [if_pos hji, h]
    exact ⟨true, rfl, fun _ => rfl⟩
  · rw [if_neg hji]
    exact ⟨n.defined, h, fun hb => hb⟩

theorem propagateDefined_length (fuel : Nat) :
    ∀ (nodes : List NodeRec) (p : Option Nat),
      (propagateDefined fuel nodes p).length = nodes.length := by
  induction fuel with
  | zero => intro nodes p; cases p <;> rfl
  | succ fuel ih =>
    intro nodes p
    cases p with
    | none => rfl
    | some i =>
      unfold propagateDefined
      cases h : nodes[i]? with
      | none => rfl
      | some n =>
        show (if n.defined = true then nodes
              else propagateDefined fuel (setDefinedAt nodes i) n.parent).length = nodes.length
        by_cases hd : n.defined
        · rw [if_pos hd]
        · rw [if_neg hd, ih, setDefinedAt_length]

theorem propagateDefined_extendsMono (fuel : Nat) :
    ∀ (nodes : List NodeRec) (p : Option Nat),
      ExtendsMono nodes (propagateDefined fuel nodes p) := by
  induction fuel with
  | zero => intro nodes p; cases p <;> exact extendsMono_refl _
  | succ fuel ih =>
    intro nodes p
    cases p with
    | none => exact extendsMono_refl _
    | some i =>
      unfold propagateDefined
      cases h : nodes[i]? with
      | none => exact extendsMono_refl _
      | some n =>
        show ExtendsMono nodes
          (if n.defined = true then nodes
           else propagateDefined fuel (setDefinedAt nodes i) n.parent)
        by_cases hd : n.defined
        · rw [if_pos hd]; exact extendsMono_refl _
        · rw [if_neg hd]
          exact extendsMono_trans (setDefinedAt_extendsMono nodes i) (ih _ _)

/-- The match stage either leaves the state unchanged or marks node `idx`
and propagates along the parent chain. -/
theorem matchAssignment_cases (dict : String → Option ConfigInfo) (md : MenuNodeData)
    (parent : Option Nat) (idx : Nat) (st1 : BuildState) :
    matchAssignment dict md parent idx st1 = st1
    ∨ ∃ ci, matchAssignment dict md parent idx st1 =
        { st1 with
          nodes := propagateDefined st1.nodes.length (setMatchedAt st1.nodes idx ci) parent } := by
  unfold matchAssignment
  split
  · split
    · split
      · split
        · exact Or.inr ⟨_, rfl⟩
        · exact Or.inl rfl
      · exact Or.inl rfl
    · exact Or.inl rfl
  · exact Or.inl rfl

/-- The match stage never changes the arena size or `max_level`, and every
entry keeps all fields except possibly `defined` (raised, never lowered)
and — only at the current node `idx` — `config`. -/
theorem matchAssignment_entries (dict : String → Option ConfigInfo) (md : MenuNodeData)
    (parent : Option Nat) (idx : Nat) (st1 : BuildState) :
    (matchAssignment dict md parent idx st1).nodes.length = st1.nodes.length
    ∧ (matchAssignment dict md parent idx st1).maxLevel = st1.maxLevel
    ∧ ∀ j n, st1.nodes[j]? = some n →
        ∃ (b : Bool) (c : Option ConfigInfo),
          (matchAssignment dict md parent idx st1).nodes[j]? =
            some { n with defined := b, config := c }
          ∧ (n.defined = true → b = true)
          ∧ (j ≠ idx → c = n.config) := by
  rcases matchAssignment_cases dict md parent idx st1 with hc | ⟨ci, hc⟩
  · rw [hc]
    exact ⟨rfl, rfl, fun j n h => ⟨n.defined, n.config, h, fun hb => hb, fun _ => rfl⟩⟩
  · rw [hc]
    refine ⟨by simp [propagateDefined_length, setMatchedAt_length], rfl, fun j n h => ?_⟩
    by_cases hji : j = idx
    · subst hji
      have hset : (setMatchedAt st1.nodes j ci)[j]? =
          some { n with defined := true, config := some ci } := by
        rw [setMatchedAt_getElem?, if_pos rfl, h]
        rfl
      obtain ⟨b, hb, hmono⟩ :=
        (propagateDefined_extendsMono st1.nodes.length
          (setMatchedAt st1.nodes j ci) parent).entry j _ hset
      refine ⟨b, some ci, hb, fun _ => hmono rfl, fun hji => absurd rfl hji⟩
    · have hset : (setMatchedAt st1.nodes idx ci)[j]? = some n := by
        rw [setMatchedAt_getElem?, if_neg hji]
        exact h
      obtain ⟨b, hb, hmono⟩ :=
        (propagateDefined_extendsMono st1.nodes.length
          (setMatchedAt st1.nodes idx ci) parent).entry j _ hset
      exact ⟨b, n.config, hb, hmono, fun _ => rfl⟩

/-! Unfolding equations for the builder (proved by `rfl`). -/

theorem buildNode_snd (dict : String → Option ConfigInfo) (t : MenuTree)
    (parent : Option Nat) (level : Nat) (st : BuildState) :
    (buildNode dict t parent level st).2 = st.nodes.length := by
  cases t with
  | mk md cf => cases cf <;> rfl

theorem buildNode_nil_eq (dict : String → Option ConfigInfo) (md : MenuNodeData)
    (parent : Option Nat) (level : Nat) (st : BuildState) :
    buildNode dict (.mk md .nil) parent level st =
      (matchAssignment dict md parent st.nodes.length
        { st with nodes := st.nodes ++ [mkNodeRec md parent level] },
       st.nodes.length) := rfl

theorem buildNode_cons_eq (dict : String → Option ConfigInfo) (md : MenuNodeData)
    (c : MenuTree) (rest : MenuForest) (parent : Option Nat) (level : Nat) (st : BuildState) :
    buildNode dict (.mk md (.cons c rest)) parent level st =
      ({ nodes :=
            setChildAt
              (buildChain dict (.cons c rest) (some st.nodes.length) (level + 1)
                (matchAssignment dict md parent st.nodes.length
                  { st with nodes := st.nodes ++ [mkNodeRec md parent level] })).1.nodes
              st.nodes.length
              (buildChain dict (.cons c rest) (some st.nodes.length) (level + 1)
                (matchAssignment dict md parent st.nodes.length
                  { st with nodes := st.nodes ++ [mkNodeRec md parent level] })).2,
         maxLevel :=
            if (buildChain dict (.cons c rest) (some st.nodes.length) (level + 1)
                  (matchAssignment dict md parent st.nodes.length
                    { st with nodes := st.nodes ++ [mkNodeRec md parent level] })).1.maxLevel
                < level + 1
            then level + 1
            else (buildChain dict (.cons c rest) (some st.nodes.length) (level + 1)
                    (matchAssignment dict md parent st.nodes.length
                      { st with nodes := st.nodes ++ [mkNodeRec md parent level] })).1.maxLevel },
       st.nodes.length) := rfl

theorem buildChain_nil_eq (dict : String → Option ConfigInfo) (parent : Option Nat)
    (level : Nat) (st : BuildState) :
    buildChain dict .nil parent level st = (st, none) := rfl

theorem buildChain_cons_eq (dict : String → Option ConfigInfo) (t : MenuTree)
    (rest : MenuForest) (parent : Option Nat) (level : Nat) (st : BuildState) :
    buildChain dict (.cons t rest) parent level st =
      ({ nodes :=
            setNextAt
              (buildChain dict rest parent level (buildNode dict t parent level st).1).1.nodes
              (buildNode dict t parent level st).2
              (buildChain dict rest parent level (buildNode dict t parent level st).1).2,
         maxLevel :=
            (buildChain dict rest parent level (buildNode dict t parent level st).1).1.maxLevel },
       some (buildNode dict t parent level st).2) := rfl

/-- Node creation followed by the match stage: arena extended by one entry,
old entries defined-monotone, `max_level` untouched. -/
theorem creation_extendsMono (dict : String → Option ConfigInfo) (md : MenuNodeData)
    (parent : Option Nat) (level : Nat) (st : BuildState) :
    ExtendsMono st.nodes
      (matchAssignment dict md parent st.nodes.length
        { st with nodes := st.nodes ++ [mkNodeRec md parent level] }).nodes
    ∧ (matchAssignment dict md parent st.nodes.length
        { st with nodes := st.nodes ++ [mkNodeRec md parent level] }).nodes.length
      = st.nodes.length + 1
    ∧ (matchAssignment dict md parent st.nodes.length
        { st with nodes := st.nodes ++ [mkNodeRec md parent level] }).maxLevel
      = st.maxLevel := by
  obtain ⟨hml, hmm, hent⟩ := matchAssignment_entries dict md parent st.nodes.length
    { st with nodes := st.nodes ++ [mkNodeRec md parent level] }
  refine ⟨⟨?_, ?_⟩, ?_, hmm⟩
  · rw [hml]; simp
  · intro j n h
    have hlt : j < st.nodes.length := getElem?_lt_of_some h
    have h1 : (st.nodes ++ [mkNodeRec md parent level])[j]? = some n := by
      rw [List.getElem?_append, if_pos hlt]; exact h
    obtain ⟨b, cfg, hb, hmono, hcfg⟩ := hent j n h1
    rw [hcfg (Nat.ne_of_lt hlt)] at hb
    exact ⟨b, hb, hmono⟩
  · rw [hml]; simp

theorem le_ite_max (a b : Nat) : a ≤ if a < b then b else a := by
  split <;> omega

mutual
/-- Foundation: `buildNode` grows the arena by the subtree size, raises
only `defined` flags of old entries, and never lowers `max_level`. -/
theorem buildNode_found (dict : String → Option ConfigInfo) (t : MenuTree)
    (parent : Option Nat) (level : Nat) (st : BuildState) :
    ExtendsMono st.nodes (buildNode dict t parent level st).1.nodes
    ∧ (buildNode dict t parent level st).1.nodes.length = st.nodes.length + t.size
    ∧ st.maxLevel ≤ (buildNode dict t parent level st).1.maxLevel := by
  cases t with
  | mk md cf =>
    cases cf with
    | nil =>
      rw [buildNode_nil_eq]
      obtain ⟨hext, hlen, hmax⟩ := creation_extendsMono dict md parent level st
      exact ⟨hext, by rw [hlen]; simp [MenuTree.size, MenuForest.size], by rw [hmax]⟩
    | cons c rest =>
      rw [buildNode_cons_eq]
      obtain ⟨hext, hlen, hmax⟩ := creation_extendsMono dict md parent level st
      obtain ⟨hext2, hlen2, hmax2⟩ :=
        buildChain_found dict (.cons c rest) (some st.nodes.length) (level + 1)
          (matchAssignment dict md parent st.nodes.length
            { st with nodes := st.nodes ++ [mkNodeRec md parent level] })
      refine ⟨⟨?_, ?_⟩, ?_, ?_⟩
      · simp only [setChildAt_length]
        omega
      · intro j n h
        have hlt : j < st.nodes.length := getElem?_lt_of_some h
        obtain ⟨b, hb, hmono⟩ := (extendsMono_trans hext hext2).entry j n h
        refine ⟨b, ?_, hmono⟩
        rw [setChildAt_getElem?, if_neg (Nat.ne_of_lt hlt)]
        exact hb
      · simp only [setChildAt_length]
        rw [hlen2, hlen]
        simp [MenuTree.size]
        omega
      · calc st.maxLevel = _ := hmax.symm
          _ ≤ _ := hmax2
          _ ≤ _ := le_ite_max _ _

/-- Foundation: `buildChain` grows the arena by the forest size, raises
only `defined` flags of old entries, and never lowers `max_level`. -/
theorem buildChain_found (dict : String → Option ConfigInfo) (f : MenuForest)
    (parent : Option Nat) (level : Nat) (st : BuildState) :
    ExtendsMono st.nodes (buildChain dict f parent level st).1.nodes
    ∧ (buildChain dict f parent level st).1.nodes.length = st.nodes.length + f.size
    ∧ st.maxLevel ≤ (buildChain dict f parent level st).1.maxLevel := by
  cases f with
  | nil =>
    rw [buildChain_nil_eq]
    exact ⟨extendsMono_refl _, by simp [MenuForest.size], Nat.le_refl _⟩
  | cons t rest =>
    rw [buildChain_cons_eq]
    obtain ⟨hext1, hlen1, hmax1⟩ := buildNode_found dict t parent level st
    obtain ⟨hext2, hlen2, hmax2⟩ :=
      buildChain_found dict rest parent level (buildNode dict t parent level st).1
    refine ⟨⟨?_, ?_⟩, ?_, ?_⟩
    · simp only [setNextAt_length]
      omega
    · intro j n h
      have hlt : j < st.nodes.length := getElem?_lt_of_some h
      obtain ⟨b, hb, hmono⟩ := (extendsMono_trans hext1 hext2).entry j n h
      refine ⟨b, ?_, hmono⟩
      rw [setNextAt_getElem?, buildNode_snd, if_neg (Nat.ne_of_lt hlt)]
      exact hb
    · simp only [setNextAt_length]
      rw [hlen2, hlen1]
      simp [MenuForest.size]
      omega
    · exact Nat.le_trans hmax1 hmax2
end

/-! Level bookkeeping: every arena entry's `level` is either inherited or
bounded by the running `max_level` (block used by claim C10). -/

theorem creation_levels (dict : String → Option ConfigInfo) (md : MenuNodeData)
    (parent : Option Nat) (level : Nat) (st : BuildState) :
    ∀ (j : Nat) (n : NodeRec), (matchAssignment dict md parent st.nodes.length
        { st with nodes := st.nodes ++ [mkNodeRec md parent level] }).nodes[j]? = some n →
      (∃ m : NodeRec, st.nodes[j]? = some m ∧ m.level = n.level) ∨ n.level = level := by
  intro j n h
  obtain ⟨hml, _, hent⟩ := matchAssignment_entries dict md parent st.nodes.length
    { st with nodes := st.nodes ++ [mkNodeRec md parent level] }
  have hjlt : j < st.nodes.length + 1 := by
    have hx := getElem?_lt_of_some h
    rw [hml] at hx
    simpa using hx
  have hlenapp : j < (st.nodes ++ [mkNodeRec md parent level]).length := by simp; omega
  obtain ⟨m1, hm1⟩ : ∃ m1, (st.nodes ++ [mkNodeRec md parent level])[j]? = some m1 :=
    ⟨_, List.getElem?_eq_getElem hlenapp⟩
  obtain ⟨b, c, hb, _, _⟩ := hent j m1 hm1
  rw [h] at hb
  have hn : n = { m1 with defined := b, config := c } := Option.some.inj hb
  have hnl : n.level = m1.level := by rw [hn]
  by_cases hj : j < st.nodes.length
  · left
    rw [List.getElem?_append, if_pos hj] at hm1
    exact ⟨m1, hm1, hnl.symm⟩
  · right
    have hje : j = st.nodes.length := by omega
    subst hje
    rw [List.getElem?_concat_length] at hm1
    have : m1 = mkNodeRec md parent level := Option.some.inj hm1.symm
    rw [hnl, this]
    rfl

theorem ite_lt_eq_max (a b : Nat) : (if a < b then b else a) = max a b := by
  split <;> omega

mutual
/-- Every entry after `buildNode` is either an old entry with unchanged
level or has level bounded by the resulting `max_level` joined with the
call level. -/
theorem buildNode_levels (dict : String → Option ConfigInfo) (t : MenuTree)
    (parent : Option Nat) (level : Nat) (st : BuildState) :
    ∀ (j : Nat) (n : NodeRec), (buildNode dict t parent level st).1.nodes[j]? = some n →
      (∃ m : NodeRec, st.nodes[j]? = some m ∧ m.level = n.level)
      ∨ n.level ≤ max (buildNode dict t parent level st).1.maxLevel level := by
  cases t with
  | mk md cf =>
    cases cf with
    | nil =>
      rw [buildNode_nil_eq]
      intro j n h
      rcases creation_levels dict md parent level st j n h with hold | hnew
      · exact Or.inl hold
      · right; omega
    | cons c rest =>
      rw [buildNode_cons_eq]
      intro j n h
      rw [setChildAt_getElem?] at h
      obtain ⟨_, _, hmaxchain⟩ :=
        buildChain_found dict (.cons c rest) (some st.nodes.length) (level + 1)
          (matchAssignment dict md parent st.nodes.length
            { st with nodes := st.nodes ++ [mkNodeRec md parent level] })
      obtain ⟨_, _, hmaxcrea⟩ := creation_extendsMono dict md parent level st
      have hstep : ∀ n0 : NodeRec,
          (buildChain dict (.cons c rest) (some st.nodes.length) (level + 1)
            (matchAssignment dict md parent st.nodes.length
              { st with nodes := st.nodes ++ [mkNodeRec md parent level] })).1.nodes[j]?
            = some n0 →
          n0.level = n.level →
          (∃ m : NodeRec, st.nodes[j]? = some m ∧ m.level = n.level)
          ∨ n.level ≤ max (if (buildChain dict (.cons c rest) (some st.nodes.length) (level + 1)
              (matchAssignment dict md parent st.nodes.length
                { st with nodes := st.nodes ++ [mkNodeRec md parent level] })).1.maxLevel
              < level + 1
            then level + 1
            else (buildChain dict (.cons c rest) (some st.nodes.length) (level + 1)
              (matchAssignment dict md parent st.nodes.length
                { st with nodes := st.nodes ++ [mkNodeRec md parent level] })).1.maxLevel)
            level := by
        intro n0 h0 hlvl
        rcases buildChain_levels dict (.cons c rest) (some st.nodes.length) (level + 1)
            (matchAssignment dict md parent st.nodes.length
              { st with nodes := st.nodes ++ [mkNodeRec md parent level] }) j n0 h0
          with ⟨m, hm, hml⟩ | hbound
        · rcases creation_levels dict md parent level st j m hm with ⟨m2, hm2, hm2l⟩ | hml2
          · exact Or.inl ⟨m2, hm2, by omega⟩
          · right
            rw [ite_lt_eq_max]
            omega
        · right
          rw [ite_lt_eq_max]
          omega
      by_cases hji : j = st.nodes.length
      · rw [if_pos hji] at h
        cases h0 : (buildChain dict (.cons c rest) (some st.nodes.length) (level + 1)
            (matchAssignment dict md parent st.nodes.length
              { st with nodes := st.nodes ++ [mkNodeRec md parent level] })).1.nodes[j]? with
        | none => rw [h0] at h; exact Option.noConfusion h
        | some n0 =>
          rw [h0] at h
          have hn : n = { n0 with child := _ } := Option.some.inj h.symm
          exact hstep n0 h0 (by rw [hn])
      · rw [if_neg hji] at h
        exact hstep n h rfl

/-- Every entry after `buildChain` is either an old entry with unchanged
level or has level bounded by the resulting `max_level` joined with the
call level. -/
theorem buildChain_levels (dict : String → Option ConfigInfo) (f : MenuForest)
    (parent : Option Nat) (level : Nat) (st : BuildState) :
    ∀ (j : Nat) (n : NodeRec), (buildChain dict f parent level st).1.nodes[j]? = some n →
      (∃ m : NodeRec, st.nodes[j]? = some m ∧ m.level = n.level)
      ∨ n.level ≤ max (buildChain dict f parent level st).1.maxLevel level := by
  cases f with
  | nil =>
    rw [buildChain_nil_eq]
    intro j n h
    exact Or.inl ⟨n, h, rfl⟩
  | cons t rest =>
    rw [buildChain_cons_eq]
    intro j n h
    rw [setNextAt_getElem?] at h
    obtain ⟨_, _, hmax1⟩ := buildNode_found dict t parent level st
    obtain ⟨_, _, hmax2⟩ :=
      buildChain_found dict rest parent level (buildNode dict t parent level st).1
    have hstep : ∀ n0 : NodeRec,
        (buildChain dict rest parent level (buildNode dict t parent level st).1).1.nodes[j]?
          = some n0 →
        n0.level = n.level →
        (∃ m : NodeRec, st.nodes[j]? = some m ∧ m.level = n.level)
        ∨ n.level ≤
            max (buildChain dict rest parent level
              (buildNode dict t parent level st).1).1.maxLevel level := by
      intro n0 h0 hlvl
      rcases buildChain_levels dict rest parent level (buildNode dict t parent level st).1
          j n0 h0 with ⟨m, hm, hml⟩ | hbound
      · rcases buildNode_levels dict t parent level st j m hm with ⟨m2, hm2, hm2l⟩ | hbound2
        · exact Or.inl ⟨m2, hm2, by omega⟩
        · right; omega
      · right; omega
    by_cases hji : j = (buildNode dict t parent level st).2
    · rw [if_pos hji] at h
      cases h0 : (buildChain dict rest parent level
          (buildNode dict t parent level st).1).1.nodes[j]? with
      | none => rw [h0] at h; exact Option.noConfusion h
      | some n0 =>
        rw [h0] at h
        have hn : n = { n0 with next := _ } := Option.some.inj h.symm
        exact hstep n0 h0 (by rw [hn])
    · rw [if_neg hji] at h
      exact hstep n h rfl
end

theorem generatePrintFormat_lengths (p : PrintFormatParams) (levelSize : Nat) :
    (generatePrintFormat p levelSize).print_prompt_format.length = levelSize
    ∧ (generatePrintFormat p levelSize).print_menu_end_format.length = levelSize
    ∧ (generatePrintFormat p levelSize).print_location_format.length = levelSize
    ∧ (generatePrintFormat p levelSize).print_help_format.length = levelSize
    ∧ (generatePrintFormat p levelSize).print_help_line_format.length = levelSize
    ∧ (generatePrintFormat p levelSize).print_orig_config_format.length = levelSize := by
  unfold generatePrintFormat
  simp

theorem makeNodeTree_maxLevel_zero (dict : String → Option ConfigInfo) (f : MenuForest) :
    (makeNodeTree dict f none 0 { nodes := [], maxLevel := 0 }).1.maxLevel =
      (buildChain dict f none 0 { nodes := [], maxLevel := 0 }).1.maxLevel := by
  unfold makeNodeTree
  simp

theorem makeNodeTree_levels_zero (dict : String → Option ConfigInfo) (f : MenuForest) :
    ∀ (j : Nat) (n : NodeRec),
      (makeNodeTree dict f none 0 { nodes := [], maxLevel := 0 }).1.nodes[j]? = some n →
      n.level ≤ (makeNodeTree dict f none 0 { nodes := [], maxLevel := 0 }).1.maxLevel := by
  intro j n h
  have h2 : (buildChain dict f none 0 { nodes := [], maxLevel := 0 }).1.nodes[j]? = some n := h
  rcases buildChain_levels dict f none 0 { nodes := [], maxLevel := 0 } j n h2
    with ⟨m, hm, _⟩ | hbound
  · simp at hm
  · rw [makeNodeTree_maxLevel_zero]
    omega

/-- C10: after `load_config_files`, every node of the annotated tree has
`level ≤ max_level`; `level_size = max_level + 1`; each per-level template
list built by `generate_print_format` has exactly `level_size` entries; so
every template lookup indexed by `node.level` during a print pass is in
bounds. -/
theorem c10_level_bounds (s : PrinterState) (symNames : List String)
    (files : List (List String)) (replace : Bool) :
    ((load_config_files s symNames files replace).level_size =
      (load_config_files s symNames files replace).max_level + 1)
    ∧ ((load_config_files s symNames files replace).formats.print_prompt_format.length =
        (load_config_files s symNames files replace).level_size)
    ∧ ((load_config_files s symNames files replace).formats.print_menu_end_format.length =
        (load_config_files s symNames files replace).level_size)
    ∧ ((load_config_files s symNames files replace).formats.print_location_format.length =
        (load_config_files s symNames files replace).level_size)
    ∧ ((load_config_files s symNames files replace).formats.print_help_format.length =
        (load_config_files s symNames files replace).level_size)
    ∧ ((load_config_files s symNames files replace).formats.print_help_line_format.length =
        (load_config_files s symNames files replace).level_size)
    ∧ ((load_config_files s symNames files replace).formats.print_orig_config_format.length =
        (load_config_files s symNames files replace).level_size)
    ∧ ∀ (j : Nat) (n : NodeRec),
        (load_config_files s symNames files replace).tree.1[j]? = some n →
        n.level ≤ (load_config_files s symNames files replace).max_level
        ∧ n.level < (load_config_files s symNames files replace).formats.print_prompt_format.length := by
  have hlens := generatePrintFormat_lengths
    ((files.foldl (fun st f => load_config st symNames f)
        { s with kconf := s.kconf ++ files.map (fun f => (f, replace)) }).print_format_params)
    ((makeNodeTree
        ((files.foldl (fun st f => load_config st symNames f)
          { s with kconf := s.kconf ++ files.map (fun f => (f, replace)) }).defined_config_dict)
        ((files.foldl (fun st f => load_config st symNames f)
          { s with kconf := s.kconf ++ files.map (fun f => (f, replace)) }).kconfTree)
        none 0 { nodes := [], maxLevel := 0 }).1.maxLevel + 1)
  refine ⟨rfl, hlens.1, hlens.2.1, hlens.2.2.1, hlens.2.2.2.1, hlens.2.2.2.2.1,
    hlens.2.2.2.2.2, ?_⟩
  intro j n h
  have hlev := makeNodeTree_levels_zero
    ((files.foldl (fun st f => load_config st symNames f)
        { s with kconf := s.kconf ++ files.map (fun f => (f, replace)) }).defined_config_dict)
    ((files.foldl (fun st f => load_config st symNames f)
        { s with kconf := s.kconf ++ files.map (fun f => (f, replace)) }).kconfTree)
    j n h
  refine ⟨hlev, ?_⟩
  have hgoal : (load_config_files s symNames files replace).formats.print_prompt_format.length =
      (makeNodeTree
        ((files.foldl (fun st f => load_config st symNames f)
          { s with kconf := s.kconf ++ files.map (fun f => (f, replace)) }).defined_config_dict)
        ((files.foldl (fun st f => load_config st symNames f)
          { s with kconf := s.kconf ++ files.map (fun f => (f, replace)) }).kconfTree)
        none 0 { nodes := [], maxLevel := 0 }).1.maxLevel + 1 := hlens.1
  rw [hgoal]
  exact Nat.lt_succ_of_le hlev

/-- Tiny external tree for the C10 witness: a single menu node. -/
def c10Forest : MenuForest :=
  .cons (.mk { item := .menuItem, is_menuconfig := false, dep := 1,
               prompt := none, help := none } .nil) .nil

/-- C10 witness: the bounds evaluated on a one-node tree with no files. -/
theorem c10_witness :
    ((load_config_files (mkPrinterState c10Forest) [] [] true).level_size =
      (load_config_files (mkPrinterState c10Forest) [] [] true).max_level + 1)
    ∧ (({ parent := none, level := 0, next := none, child := none, defined := false,
          config := none, is_symbol := false, is_choice := false, is_menu := true,
          prompt := none, help := none } : NodeRec).level ≤
        (load_config_files (mkPrinterState c10Forest) [] [] true).max_level
      ∧ ({ parent := none, level := 0, next := none, child := none, defined := false,
           config := none, is_symbol := false, is_choice := false, is_menu := true,
           prompt := none, help := none } : NodeRec).level <
        (load_config_files (mkPrinterState c10Forest) [] []
          true).formats.print_prompt_format.length) := by
  refine ⟨(c10_level_bounds (mkPrinterState c10Forest) [] [] true).1, ?_⟩
  exact (c10_level_bounds (mkPrinterState c10Forest) [] [] true).2.2.2.2.2.2.2 0
    { parent := none, level := 0, next := none, child := none, defined := false,
      config := none, is_symbol := false, is_choice := false, is_menu := true,
      prompt := none, help := none } (by rfl)

/-! Parent-chain invariants for claim C2. -/

/-- Parents are created before children, so parent indices strictly
decrease. -/
def ParentsLt (nodes : List NodeRec) : Prop :=
  ∀ (j : Nat) (n : NodeRec) (p : Nat), nodes[j]? = some n → n.parent = some p → p < j

/-- Every defined node's parent (when present) is defined. -/
def AncClosed (nodes : List NodeRec) : Prop :=
  ∀ (j : Nat) (n : NodeRec) (p : Nat), nodes[j]? = some n → n.defined = true →
    n.parent = some p → ∃ m : NodeRec, nodes[p]? = some m ∧ m.defined = true

/-- `AncClosed` up to one pending parent edge (the state in the middle of
the upward-propagation loop). -/
def AncClosedExcept (nodes : List NodeRec) (pend : Option Nat) : Prop :=
  ∀ (j : Nat) (n : NodeRec) (p : Nat), nodes[j]? = some n → n.defined = true →
    n.parent = some p →
    (∃ m : NodeRec, nodes[p]? = some m ∧ m.defined = true) ∨ some p = pend

/-- Transitive closure of the parent link: `IsAncestor nodes j i` means `j`
is a strict ancestor of `i`. -/
inductive IsAncestor (nodes : List NodeRec) : Nat → Nat → Prop where
  | parent {i : Nat} {n : NodeRec} {j : Nat} :
      nodes[i]? = some n → n.parent = some j → IsAncestor nodes j i
  | trans {k j i : Nat} : IsAncestor nodes k j → IsAncestor nodes j i → IsAncestor nodes k i

theorem ancClosed_ancestors {nodes : List NodeRec} (h : AncClosed nodes) :
    ∀ {j i : Nat}, IsAncestor nodes j i →
      ∀ ni : NodeRec, nodes[i]? = some ni → ni.defined = true →
      ∃ m : NodeRec, nodes[j]? = some m ∧ m.defined = true := by
  intro j i hanc
  induction hanc with
  | parent hni hp =>
    intro m h1 hd
    rename_i i0 n0 j0
    have : n0 = m := by rw [hni] at h1; exact Option.some.inj h1
    subst this
    exact h _ _ _ hni hd hp
  | trans h1 h2 ih1 ih2 =>
    intro ni hni hd
    obtain ⟨m, hm, hmd⟩ := ih2 ni hni hd
    exact ih1 m hm hmd

theorem parentsLt_updateAt {nodes : List NodeRec} {f : NodeRec → NodeRec} {i : Nat}
    (hf : ∀ n : NodeRec, (f n).parent = n.parent) (h : ParentsLt nodes) :
    ParentsLt (updateAt f nodes i) := by
  intro j n p hn hp
  rw [updateAt_getElem?] at hn
  by_cases hji : j = i
  · rw [if_pos hji] at hn
    cases h0 : nodes[j]? with
    | none => rw [h0] at hn; exact Option.noConfusion hn
    | some n0 =>
      rw [h0] at hn
      have : n = f n0 := Option.some.inj hn.symm
      subst this
      exact h j n0 p h0 (by rw [← hf n0]; exact hp)
  · rw [if_neg hji] at hn
    exact h j n p hn hp

theorem parentsLt_propagate (fuel : Nat) :
    ∀ (nodes : List NodeRec) (p : Option Nat), ParentsLt nodes →
      ParentsLt (propagateDefined fuel nodes p) := by
  induction fuel with
  | zero => intro nodes p h; cases p <;> exact h
  | succ fuel ih =>
    intro nodes p h
    cases p with
    | none => exact h
    | some i =>
      unfold propagateDefined
      cases hi : nodes[i]? with
      | none => exact h
      | some n =>
        show ParentsLt (if n.defined = true then nodes
          else propagateDefined fuel (setDefinedAt nodes i) n.parent)
        by_cases hd : n.defined
        · rw [if_pos hd]; exact h
        · rw [if_neg hd]
          exact ih _ _ (parentsLt_updateAt (fun _ => rfl) h)

/-- Correctness of the upward-propagation loop: starting from a state whose
only unresolved parent edge is the pending one, and enough fuel for the
strictly decreasing parent chain, the loop restores `AncClosed`. -/
theorem propagate_ancClosed (fuel : Nat) :
    ∀ (nodes : List NodeRec) (pend : Option Nat),
      ParentsLt nodes →
      (∀ i : Nat, pend = some i → i < fuel ∧ i < nodes.length) →
      AncClosedExcept nodes pend →
      AncClosed (propagateDefined fuel nodes pend) := by
  induction fuel with
  | zero =>
    intro nodes pend hplt hfuel hexc
    cases pend with
    | none =>
      intro j n p hn hd hp
      rcases hexc j n p hn hd hp with h | h
      · exact h
      · exact Option.noConfusion h
    | some i => exact absurd (hfuel i rfl).1 (Nat.not_lt_zero i)
  | succ fuel ih =>
    intro nodes pend hplt hfuel hexc
    cases pend with
    | none =>
      intro j n p hn hd hp
      rcases hexc j n p hn hd hp with h | h
      · exact h
      · exact Option.noConfusion h
    | some i =>
      have hilen : i < nodes.length := (hfuel i rfl).2
      obtain ⟨n, hn⟩ : ∃ n : NodeRec, nodes[i]? = some n :=
        ⟨nodes[i], List.getElem?_eq_getElem hilen⟩
      unfold propagateDefined
      rw [hn]
      show AncClosed (if n.defined = true then nodes
        else propagateDefined fuel (setDefinedAt nodes i) n.parent)
      by_cases hd : n.defined
      · rw [if_pos hd]
        intro j m p hm hmd hp
        rcases hexc j m p hm hmd hp with h | h
        · exact h
        · have : p = i := Option.some.inj h
          subst this
          exact ⟨n, hn, hd⟩
      · rw [if_neg hd]
        refine ih (setDefinedAt nodes i) n.parent
          (parentsLt_updateAt (fun _ => rfl) hplt) ?_ ?_
        · intro q hq
          have hqi : q < i := hplt i n q hn hq
          have hif : i < fuel + 1 := (hfuel i rfl).1
          constructor
          · omega
          · rw [setDefinedAt_length]; omega
        · intro j m p hm hmd hp
          rw [setDefinedAt_getElem?] at hm
          by_cases hji : j = i
          · subst hji
            rw [if_pos rfl, hn] at hm
            have hmn : m = { n with defined := true } := Option.some.inj hm.symm
            right
            rw [hmn] at hp
            exact hp.symm
          · rw [if_neg hji] at hm
            rcases hexc j m p hm hmd hp with ⟨m2, hm2, hm2d⟩ | hpi
            · left
              by_cases hpi2 : p = i
              · subst hpi2
                refine ⟨{ n with defined := true }, ?_, rfl⟩
                rw [setDefinedAt_getElem?, if_pos rfl, hn]
                rfl
              · exact ⟨m2, by rw [setDefinedAt_getElem?, if_neg hpi2]; exact hm2, hm2d⟩
            · have hpieq : p = i := Option.some.inj hpi
              subst hpieq
              left
              refine ⟨{ n with defined := true }, ?_, rfl⟩
              rw [setDefinedAt_getElem?, if_pos rfl, hn]
              rfl

theorem ancClosed_updateAt {nodes : List NodeRec} {f : NodeRec → NodeRec} {i : Nat}
    (hfd : ∀ n : NodeRec, (f n).defined = n.defined)
    (hfp : ∀ n : NodeRec, (f n).parent = n.parent)
    (h : AncClosed nodes) : AncClosed (updateAt f nodes i) := by
  have hkeep : ∀ (p : Nat) (m : NodeRec), nodes[p]? = some m → m.defined = true →
      ∃ m' : NodeRec, (updateAt f nodes i)[p]? = some m' ∧ m'.defined = true := by
    intro p m hm hmd
    rw [updateAt_getElem?]
    by_cases hpi : p = i
    · rw [if_pos hpi, hm]
      exact ⟨f m, rfl, by rw [hfd]; exact hmd⟩
    · rw [if_neg hpi]
      exact ⟨m, hm, hmd⟩
  intro j n p hn hd hp
  rw [updateAt_getElem?] at hn
  by_cases hji : j = i
  · rw [if_pos hji] at hn
    cases h0 : nodes[j]? with
    | none => rw [h0] at hn; exact Option.noConfusion hn
    | some n0 =>
      rw [h0] at hn
      have hne : n = f n0 := Option.some.inj hn.symm
      obtain ⟨m, hm, hmd⟩ := h j n0 p h0
        (by rw [← hfd n0, ← hne]; exact hd)
        (by rw [← hfp n0, ← hne]; exact hp)
      exact hkeep p m hm hmd
  · rw [if_neg hji] at hn
    obtain ⟨m, hm, hmd⟩ := h j n p hn hd hp
    exact hkeep p m hm hmd

/-- Node creation followed by the match stage preserves the parent-chain
invariants (the new node's parent edge is resolved by the propagation
loop). -/
theorem creation_anc (dict : String → Option ConfigInfo) (md : MenuNodeData)
    (parent : Option Nat) (level : Nat) (st : BuildState)
    (hpOk : ∀ p : Nat, parent = some p → p < st.nodes.length)
    (hplt : ParentsLt st.nodes) (hanc : AncClosed st.nodes) :
    ParentsLt (matchAssignment dict md parent st.nodes.length
      { st with nodes := st.nodes ++ [mkNodeRec md parent level] }).nodes
    ∧ AncClosed (matchAssignment dict md parent st.nodes.length
      { st with nodes := st.nodes ++ [mkNodeRec md parent level] }).nodes := by
  have hplt1 : ParentsLt (st.nodes ++ [mkNodeRec md parent level]) := by
    intro j n p hn hp
    have hjlt : j < st.nodes.length + 1 := by
      have := getElem?_lt_of_some hn
      simpa using this
    by_cases hj : j < st.nodes.length
    · rw [List.getElem?_append, if_pos hj] at hn
      exact hplt j n p hn hp
    · have hje : j = st.nodes.length := by omega
      subst hje
      rw [List.getElem?_concat_length] at hn
      have hne : n = mkNodeRec md parent level := Option.some.inj hn.symm
      rw [hne] at hp
      exact hpOk p hp
  have hanc1 : AncClosed (st.nodes ++ [mkNodeRec md parent level]) := by
    intro j n p hn hd hp
    have hjlt : j < st.nodes.length + 1 := by
      have := getElem?_lt_of_some hn
      simpa using this
    by_cases hj : j < st.nodes.length
    · rw [List.getElem?_append, if_pos hj] at hn
      obtain ⟨m, hm, hmd⟩ := hanc j n p hn hd hp
      have hplt2 : p < st.nodes.length := getElem?_lt_of_some hm
      exact ⟨m, by rw [List.getElem?_append, if_pos hplt2]; exact hm, hmd⟩
    · have hje : j = st.nodes.length := by omega
      subst hje
      rw [List.getElem?_concat_length] at hn
      have hne : n = mkNodeRec md parent level := Option.some.inj hn.symm
      rw [hne] at hd
      exact absurd hd (by simp [mkNodeRec])
  rcases matchAssignment_cases dict md parent st.nodes.length
      { st with nodes := st.nodes ++ [mkNodeRec md parent level] } with hc | ⟨ci, hc⟩
  · rw [hc]
    exact ⟨hplt1, hanc1⟩
  · rw [hc]
    have hplt2 : ParentsLt (setMatchedAt (st.nodes ++ [mkNodeRec md parent level])
        st.nodes.length ci) :=
      parentsLt_updateAt (fun _ => rfl) hplt1
    have hexc : AncClosedExcept (setMatchedAt (st.nodes ++ [mkNodeRec md parent level])
        st.nodes.length ci) parent := by
      intro j n p hn hd hp
      rw [setMatchedAt_getElem?] at hn
      by_cases hji : j = st.nodes.length
      · subst hji
        rw [if_pos rfl, List.getElem?_concat_length] at hn
        have hne : n = { mkNodeRec md parent level with defined := true, config := some ci } :=
          Option.some.inj hn.symm
        right
        rw [hne] at hp
        exact hp.symm
      · rw [if_neg hji] at hn
        obtain ⟨m, hm, hmd⟩ := hanc1 j n p hn hd hp
        left
        by_cases hpi : p = st.nodes.length
        · subst hpi
          rw [List.getElem?_concat_length] at hm
          have : m = mkNodeRec md parent level := Option.some.inj hm.symm
          rw [this] at hmd
          exact absurd hmd (by simp [mkNodeRec])
        · exact ⟨m, by rw [setMatchedAt_getElem?, if_neg hpi]; exact hm, hmd⟩
    constructor
    · exact parentsLt_propagate _ _ _ hplt2
    · refine propagate_ancClosed _ _ _ hplt2 ?_ hexc
      intro q hq
      have hqlt : q < st.nodes.length := hpOk q hq
      constructor
      · simp; omega
      · rw [setMatchedAt_length]; simp; omega

mutual
/-- `buildNode` preserves the parent-chain invariants. -/
theorem buildNode_anc (dict : String → Option ConfigInfo) (t : MenuTree)
    (parent : Option Nat) (level : Nat) (st : BuildState)
    (hpOk : ∀ p : Nat, parent = some p → p < st.nodes.length)
    (hplt : ParentsLt st.nodes) (hanc : AncClosed st.nodes) :
    ParentsLt (buildNode dict t parent level st).1.nodes
    ∧ AncClosed (buildNode dict t parent level st).1.nodes := by
  cases t with
  | mk md cf =>
    cases cf with
    | nil =>
      rw [buildNode_nil_eq]
      exact creation_anc dict md parent level st hpOk hplt hanc
    | cons c rest =>
      rw [buildNode_cons_eq]
      obtain ⟨hplt2, hanc2⟩ := creation_anc dict md parent level st hpOk hplt hanc
      obtain ⟨_, hclen, _⟩ := creation_extendsMono dict md parent level st
      obtain ⟨hplt3, hanc3⟩ :=
        buildChain_anc dict (.cons c rest) (some st.nodes.length) (level + 1)
          (matchAssignment dict md parent st.nodes.length
            { st with nodes := st.nodes ++ [mkNodeRec md parent level] })
          (by intro p hp
              have : p = st.nodes.length := Option.some.inj hp.symm
              rw [this, hclen]
              omega)
          hplt2 hanc2
      exact ⟨parentsLt_updateAt (fun _ => rfl) hplt3,
        ancClosed_updateAt (fun _ => rfl) (fun _ => rfl) hanc3⟩

/-- `buildChain` preserves the parent-chain invariants. -/
theorem buildChain_anc (dict : String → Option ConfigInfo) (f : MenuForest)
    (parent : Option Nat) (level : Nat) (st : BuildState)
    (hpOk : ∀ p : Nat, parent = some p → p < st.nodes.length)
    (hplt : ParentsLt st.nodes) (hanc : AncClosed st.nodes) :
    ParentsLt (buildChain dict f parent level st).1.nodes
    ∧ AncClosed (buildChain dict f parent level st).1.nodes := by
  cases f with
  | nil =>
    rw [buildChain_nil_eq]
    exact ⟨hplt, hanc⟩
  | cons t rest =>
    rw [buildChain_cons_eq]
    obtain ⟨hplt1, hanc1⟩ := buildNode_anc dict t parent level st hpOk hplt hanc
    obtain ⟨hext1, _, _⟩ := buildNode_found dict t parent level st
    obtain ⟨hplt2, hanc2⟩ :=
      buildChain_anc dict rest parent level (buildNode dict t parent level st).1
        (by intro p hp
            exact Nat.lt_of_lt_of_le (hpOk p hp) hext1.length_le)
        hplt1 hanc1
    exact ⟨parentsLt_updateAt (fun _ => rfl) hplt2,
      ancClosed_updateAt (fun _ => rfl) (fun _ => rfl) hanc2⟩
end

/-- C2: in every tree produced by `make_node_tree` (from the empty arena,
as `load_config_files` always does), every strict ancestor of a defined
node is defined; and during construction — i.e. across any builder call
starting from any intermediate state — a node's `defined` flag, once true,
is never reset to false. -/
theorem c2_defined_monotone_and_ancestors :
    (∀ (dict : String → Option ConfigInfo) (f : MenuForest) (i j : Nat) (ni : NodeRec),
      (makeNodeTree dict f none 0 { nodes := [], maxLevel := 0 }).1.nodes[i]? = some ni →
      ni.defined = true →
      IsAncestor (makeNodeTree dict f none 0 { nodes := [], maxLevel := 0 }).1.nodes j i →
      ∃ m : NodeRec,
        (makeNodeTree dict f none 0 { nodes := [], maxLevel := 0 }).1.nodes[j]? = some m
        ∧ m.defined = true)
    ∧ (∀ (dict : String → Option ConfigInfo) (f : MenuForest) (parent : Option Nat)
        (level : Nat) (st : BuildState) (j : Nat) (n : NodeRec),
      st.nodes[j]? = some n → n.defined = true →
      ∃ n' : NodeRec,
        (makeNodeTree dict f parent level st).1.nodes[j]? = some n' ∧ n'.defined = true) := by
  constructor
  · intro dict f i j ni hni hd hanc
    have hcanc : AncClosed (buildChain dict f none 0 { nodes := [], maxLevel := 0 }).1.nodes :=
      (buildChain_anc dict f none 0 { nodes := [], maxLevel := 0 }
        (fun p hp => Option.noConfusion hp)
        (fun j2 n2 p2 hn2 _ => absurd hn2 (by simp))
        (fun j2 n2 p2 hn2 _ _ => absurd hn2 (by simp))).2
    exact ancClosed_ancestors hcanc hanc ni hni hd
  · intro dict f parent level st j n hn hd
    obtain ⟨b, hb, hmono⟩ := (buildChain_found dict f parent level st).1.entry j n hn
    exact ⟨{ n with defined := b }, hb, hmono hd⟩

/-- Table for the C2 witness: only `A` is assigned. -/
def c2Dict : String → Option ConfigInfo :=
  fun n => if n = "A" then
    some { name := "A", line := "CONFIG_A=y", hasSymbol := true, comment := "" }
  else none

/-- External tree for the C2 witness: a menu containing the symbol `A`. -/
def c2Forest : MenuForest :=
  .cons
    (.mk { item := .menuItem, is_menuconfig := true, dep := 1, prompt := some "M", help := none }
      (.cons
        (.mk { item := .symbol "A", is_menuconfig := false, dep := 1, prompt := some "a",
               help := none } .nil)
        .nil))
    .nil

/-- C2 witness: in the two-node tree, the matched child (index 1) is
defined and its parent (index 0) is defined too; and a pre-existing
defined entry stays defined across a builder call. -/
theorem c2_witness :
    (∃ m : NodeRec,
      (makeNodeTree c2Dict c2Forest none 0 { nodes := [], maxLevel := 0 }).1.nodes[0]? = some m
      ∧ m.defined = true)
    ∧ (∃ n' : NodeRec,
      (makeNodeTree (fun _ => none) .nil none 0
        { nodes := [{ parent := none, level := 0, next := none, child := none, defined := true,
                      config := none, is_symbol := false, is_choice := false, is_menu := false,
                      prompt := none, help := none }], maxLevel := 0 }).1.nodes[0]? = some n'
      ∧ n'.defined = true) := by
  constructor
  · exact c2_defined_monotone_and_ancestors.1 c2Dict c2Forest 1 0
      { parent := some 0, level := 1, next := none, child := none, defined := true,
        config := some { name := "A", line := "CONFIG_A=y", hasSymbol := true, comment := "" },
        is_symbol := true, is_choice := false, is_menu := false, prompt := some "a",
        help := none }
      (by rfl) (by rfl)
      (IsAncestor.parent (by rfl) (by rfl))
  · exact c2_defined_monotone_and_ancestors.2 (fun _ => none) .nil none 0
      { nodes := [{ parent := none, level := 0, next := none, child := none, defined := true,
                    config := none, is_symbol := false, is_choice := false, is_menu := false,
                    prompt := none, help := none }], maxLevel := 0 }
      0
      { parent := none, level := 0, next := none, child := none, defined := true,
        config := none, is_symbol := false, is_choice := false, is_menu := false,
        prompt := none, help := none }
      (by rfl) (by rfl)

/-! Shape preservation (claim C4). -/

/-- The child chain of an external node. -/
def MenuTree.children : MenuTree → MenuForest
  | .mk _ cf => cf

/-- `Mirrors nodes lo o f`: the arena chain starting at index `o` mirrors
the external sibling chain `f` node for node, in order, with the same
nesting, using only arena indices `≥ lo`. -/
inductive Mirrors (nodes : List NodeRec) : Nat → Option Nat → MenuForest → Prop where
  | nil (lo : Nat) : Mirrors nodes lo none .nil
  | cons {lo i : Nat} {n : NodeRec} {t : MenuTree} {rest : MenuForest} :
      lo ≤ i → nodes[i]? = some n →
      Mirrors nodes (i + 1) n.child t.children →
      Mirrors nodes (i + 1) n.next rest →
      Mirrors nodes lo (some i) (.cons t rest)

theorem mirrors_le {nodes : List NodeRec} {lo lo' : Nat} {o : Option Nat} {f : MenuForest}
    (h : Mirrors nodes lo o f) (hle : lo' ≤ lo) : Mirrors nodes lo' o f := by
  cases h with
  | nil => exact .nil _
  | cons hlo hn hc hr => exact .cons (Nat.le_trans hle hlo) hn hc hr

theorem mirrors_preserve {nodes nodes' : List NodeRec} {lo : Nat} {o : Option Nat}
    {f : MenuForest} (h : Mirrors nodes lo o f)
    (hpres : ∀ (j : Nat) (n : NodeRec), lo ≤ j → nodes[j]? = some n →
      ∃ n' : NodeRec, nodes'[j]? = some n' ∧ n'.child = n.child ∧ n'.next = n.next) :
    Mirrors nodes' lo o f := by
  induction h with
  | nil lo => exact .nil lo
  | @cons lo i n t rest hlo hn hc hr ihc ihr =>
    obtain ⟨n', hn', hch, hnx⟩ := hpres i n hlo hn
    refine .cons hlo hn' ?_ ?_
    · rw [hch]
      exact ihc (fun j m hj hm => hpres j m (by omega) hm)
    · rw [hnx]
      exact ihr (fun j m hj hm => hpres j m (by omega) hm)

/-- Link preservation extracted from `ExtendsMono`. -/
theorem extendsMono_links {a b : List NodeRec} (h : ExtendsMono a b) :
    ∀ (j : Nat) (n : NodeRec), a[j]? = some n →
      ∃ n' : NodeRec, b[j]? = some n' ∧ n'.child = n.child ∧ n'.next = n.next := by
  intro j n hj
  obtain ⟨bd, hb, _⟩ := h.entry j n hj
  exact ⟨{ n with defined := bd }, hb, rfl, rfl⟩

/-- Link preservation under an `updateAt` away from the referenced range. -/
theorem updateAt_links_ne {nodes : List NodeRec} {f : NodeRec → NodeRec} {i : Nat} :
    ∀ (j : Nat) (n : NodeRec), j ≠ i → nodes[j]? = some n →
      (updateAt f nodes i)[j]? = some n := by
  intro j n hji hj
  rw [updateAt_getElem?, if_neg hji]
  exact hj

theorem MenuTree.size_pos (t : MenuTree) : 1 ≤ t.size := by
  cases t with
  | mk md cf => simp [MenuTree.size]

mutual
/-- The node built for `t` sits at index `st.nodes.length`, has no `next`
link yet, and its `child` link mirrors `t`'s child chain. -/
theorem buildNode_mirrors (dict : String → Option ConfigInfo) (t : MenuTree)
    (parent : Option Nat) (level : Nat) (st : BuildState) :
    ∃ n : NodeRec,
      (buildNode dict t parent level st).1.nodes[st.nodes.length]? = some n
      ∧ n.next = none
      ∧ Mirrors (buildNode dict t parent level st).1.nodes (st.nodes.length + 1)
          n.child t.children := by
  cases t with
  | mk md cf =>
    cases cf with
    | nil =>
      rw [buildNode_nil_eq]
      obtain ⟨_, _, hent⟩ := matchAssignment_entries dict md parent st.nodes.length
        { st with nodes := st.nodes ++ [mkNodeRec md parent level] }
      obtain ⟨b, c, hb, _, _⟩ := hent st.nodes.length (mkNodeRec md parent level)
        (List.getElem?_concat_length _ _)
      exact ⟨{ mkNodeRec md parent level with defined := b, config := c }, hb, rfl,
        Mirrors.nil _⟩
    | cons c rest =>
      rw [buildNode_cons_eq]
      obtain ⟨_, _, hent⟩ := matchAssignment_entries dict md parent st.nodes.length
        { st with nodes := st.nodes ++ [mkNodeRec md parent level] }
      obtain ⟨hclen2, hclen, _⟩ := creation_extendsMono dict md parent level st
      obtain ⟨b, cc, hb, _, _⟩ := hent st.nodes.length (mkNodeRec md parent level)
        (List.getElem?_concat_length _ _)
      have hchain := buildChain_mirrors dict (.cons c rest) (some st.nodes.length) (level + 1)
        (matchAssignment dict md parent st.nodes.length
          { st with nodes := st.nodes ++ [mkNodeRec md parent level] })
      rw [hclen] at hchain
      obtain ⟨hextc, _, _⟩ :=
        buildChain_found dict (.cons c rest) (some st.nodes.length) (level + 1)
          (matchAssignment dict md parent st.nodes.length
            { st with nodes := st.nodes ++ [mkNodeRec md parent level] })
      obtain ⟨b2, hb2, _⟩ := hextc.entry st.nodes.length _ hb
      refine ⟨{ mkNodeRec md parent level with
                  defined := b2
                  config := cc
                  child := (buildChain dict (.cons c rest) (some st.nodes.length) (level + 1)
                    (matchAssignment dict md parent st.nodes.length
                      { st with nodes := st.nodes ++ [mkNodeRec md parent level] })).2 },
        ?_, rfl, ?_⟩
      · rw [setChildAt_getElem?, if_pos rfl, hb2]
        rfl
      · exact mirrors_preserve hchain
          (fun j m hj hm =>
            ⟨m, updateAt_links_ne j m (show j ≠ st.nodes.length by omega) hm, rfl, rfl⟩)

/-- The chain built for `f` starting at index `st.nodes.length` mirrors
`f`. -/
theorem buildChain_mirrors (dict : String → Option ConfigInfo) (f : MenuForest)
    (parent : Option Nat) (level : Nat) (st : BuildState) :
    Mirrors (buildChain dict f parent level st).1.nodes st.nodes.length
      (buildChain dict f parent level st).2 f := by
  cases f with
  | nil =>
    rw [buildChain_nil_eq]
    exact .nil _
  | cons t rest =>
    rw [buildChain_cons_eq]
    obtain ⟨n1, hn1, hnx1, hc1⟩ := buildNode_mirrors dict t parent level st
    obtain ⟨hext1, hlen1, _⟩ := buildNode_found dict t parent level st
    have hrest := buildChain_mirrors dict rest parent level (buildNode dict t parent level st).1
    obtain ⟨hext2, _, _⟩ :=
      buildChain_found dict rest parent level (buildNode dict t parent level st).1
    obtain ⟨b2, hb2, _⟩ := hext2.entry st.nodes.length n1 hn1
    rw [buildNode_snd]
    have hsize := MenuTree.size_pos t
    -- children Mirrors carried into the rest-state, then across setNextAt
    have hc2 : Mirrors
        (buildChain dict rest parent level (buildNode dict t parent level st).1).1.nodes
        (st.nodes.length + 1) n1.child t.children :=
      mirrors_preserve hc1 (fun j m hj hm => extendsMono_links hext2 j m hm)
    have hc3 : Mirrors
        (setNextAt
          (buildChain dict rest parent level (buildNode dict t parent level st).1).1.nodes
          st.nodes.length
          (buildChain dict rest parent level (buildNode dict t parent level st).1).2)
        (st.nodes.length + 1) n1.child t.children :=
      mirrors_preserve hc2
        (fun j m hj hm =>
          ⟨m, updateAt_links_ne j m (show j ≠ st.nodes.length by omega) hm, rfl, rfl⟩)
    have hr2 : Mirrors
        (setNextAt
          (buildChain dict rest parent level (buildNode dict t parent level st).1).1.nodes
          st.nodes.length
          (buildChain dict rest parent level (buildNode dict t parent level st).1).2)
        ((buildNode dict t parent level st).1.nodes.length)
        (buildChain dict rest parent level (buildNode dict t parent level st).1).2 rest := by
      refine mirrors_preserve hrest ?_
      intro j m hj hm
      have hne : j ≠ st.nodes.length := by
        rw [hlen1] at hj
        omega
      exact ⟨m, updateAt_links_ne j m hne hm, rfl, rfl⟩
    have hr3 := mirrors_le hr2 (by rw [hlen1]; omega :
      st.nodes.length + 1 ≤ (buildNode dict t parent level st).1.nodes.length)
    have hentry : (setNextAt
        (buildChain dict rest parent level (buildNode dict t parent level st).1).1.nodes
        st.nodes.length
        (buildChain dict rest parent level
          (buildNode dict t parent level st).1).2)[st.nodes.length]? =
        some { n1 with
                 defined := b2
                 next := (buildChain dict rest parent level
                   (buildNode dict t parent level st).1).2 } := by
      rw [setNextAt_getElem?, if_pos rfl, hb2]
      rfl
    exact Mirrors.cons (Nat.le_refl _) hentry hc3 hr3
end

/-- C4: for every external tree and every assignment table, the annotated
tree built by `make_node_tree` mirrors the external tree exactly: one node
per external node (arena size equals external size), same sibling order
and same nesting, regardless of dependency values or table contents. -/
theorem c4_shape_preservation (dict : String → Option ConfigInfo) (f : MenuForest) :
    Mirrors (makeNodeTree dict f none 0 { nodes := [], maxLevel := 0 }).1.nodes 0
      (makeNodeTree dict f none 0 { nodes := [], maxLevel := 0 }).2 f
    ∧ (makeNodeTree dict f none 0 { nodes := [], maxLevel := 0 }).1.nodes.length = f.size := by
  constructor
  · exact buildChain_mirrors dict f none 0 { nodes := [], maxLevel := 0 }
  · have h := (buildChain_found dict f none 0 { nodes := [], maxLevel := 0 }).2.1
    simpa using h
